import Mathlib

/- Verification development for the NTAG215 Flipper password converter.
   The definitions below are a shallow embedding of the Python source file
   ntag215converter.py: bytes are modelled as natural numbers below 256,
   Python strings as Lean strings, and every Python function that can raise
   an exception is modelled with an Option result. -/

set_option maxRecDepth 8192

/-- Space separator, the Python literal used in join calls. -/
def spc : String := " "

/-- Newline, the Python line terminator. -/
def nl : String := "\n"

/-- Empty string, the Python join separator in format_new_page. -/
def emptyStr : String := ""

/-- Marker of the UID header line. -/
def uidTag : String := "UID:"

/-- Marker of the password page line. -/
def tag133 : String := "Page 133:"

/-- Marker of the PACK page line. -/
def tag134 : String := "Page 134:"

/-- Lowercase hexadecimal digit character for a value below 16. -/
def hexDigL (n : Nat) : Char :=
  if n < 10 then Char.ofNat (48 + n) else Char.ofNat (87 + n)

/-- Uppercase hexadecimal digit character for a value below 16. -/
def hexDigU (n : Nat) : Char :=
  if n < 10 then Char.ofNat (48 + n) else Char.ofNat (55 + n)

/-- Two lowercase hex digits of one byte, models the Python expression
contents[i : i + 1].hex() applied to a singleton slice. -/
def byteHex (b : Nat) : String :=
  String.mk [hexDigL (b / 16), hexDigL (b % 16)]

/-- Two uppercase hex digits of one byte, models the Python format
string {:02X} applied to a byte value. -/
def byteHexU (b : Nat) : String :=
  String.mk [hexDigU (b / 16), hexDigU (b % 16)]

/-- Models the Python method sep.join(parts). -/
def joinSep (sep : String) : List String → String
  | [] => ""
  | [s] => s
  | s :: rest => s ++ sep ++ joinSep sep rest

/-- Models the Python method s.upper() on ASCII strings. -/
def upper (s : String) : String :=
  String.mk (s.data.map Char.toUpper)

/-- Models the Python substring test sub in s. -/
def strContains (s sub : String) : Bool :=
  decide (sub.data <:+: s.data)

/-- Models the slice expression contents[i : i + 1].hex(): the empty
string when i is out of range, two hex digits otherwise. -/
def sliceHex (contents : List Nat) (i : Nat) : String :=
  if h : i < contents.length then byteHex contents[i] else ""

/-- Byte positions collected for the UID, the Python loops range(3)
and range(4, 8) in get_uid. -/
def uidIdx : List Nat := [0, 1, 2, 4, 5, 6, 7]

/-- Models get_uid from the source: bytes 0, 1, 2 then 4, 5, 6, 7 rendered
as space separated uppercase hex pairs, out of range slices giving
empty strings. -/
def get_uid (contents : List Nat) : String :=
  upper (joinSep spc (uidIdx.map (sliceHex contents)))

/-- Models calculate_password from the source: the fixed XOR formula when
the uid has exactly 7 bytes, the empty list otherwise. -/
def calculate_password (uid : List Nat) : List Nat :=
  if h : uid.length = 7 then
    [uid[1] ^^^ uid[3] ^^^ 0xAA,
     uid[2] ^^^ uid[4] ^^^ 0x55,
     uid[3] ^^^ uid[5] ^^^ 0xAA,
     uid[4] ^^^ uid[6] ^^^ 0x55]
  else []

/-- Value of one hex digit character, the per character part of the
Python classmethod bytes.fromhex. -/
def hexVal (c : Char) : Option Nat :=
  if 48 ≤ c.toNat ∧ c.toNat ≤ 57 then some (c.toNat - 48)
  else if 97 ≤ c.toNat ∧ c.toNat ≤ 102 then some (c.toNat - 87)
  else if 65 ≤ c.toNat ∧ c.toNat ≤ 70 then some (c.toNat - 55)
  else none

/-- Parse consecutive pairs of hex digit characters into byte values,
failing on an odd count or a character that is not a hex digit. -/
def parseHexPairs : List Char → Option (List Nat)
  | [] => some []
  | [_] => none
  | c1 :: c2 :: rest =>
    match hexVal c1, hexVal c2, parseHexPairs rest with
    | some h, some l, some bs => some ((16 * h + l) :: bs)
    | _, _, _ => none

/-- Models bytes.fromhex: spaces are ignored, the remaining characters
must form hex digit pairs. -/
def fromhex (s : String) : Option (List Nat) :=
  parseHexPairs (s.data.filter (fun c => decide (c ≠ ' ')))

/-- Models get_pwd from the source: parse the uid text back into bytes,
then derive the password; none models a ValueError escaping fromhex. -/
def get_pwd (contents : List Nat) : Option (List Nat) :=
  (fromhex (get_uid contents)).map (fun uid => calculate_password uid)

/-- One content page line, models the f-string
Page {page_count}: {' '.join(page).upper()} of convert. -/
def mkPageLine (page_count : Nat) (page : List String) : String :=
  "Page " ++ toString page_count ++ ": " ++ upper (joinSep spc page)

/-- The byte loop of convert: walks the contents, groups hex pairs four at
a time into page lines, stops once the page count passes 132.  Returns the
buffer of finished lines, the page count and the unfinished page. -/
def convLoop : List Nat → Nat → List String → List String →
    List String × Nat × List String
  | [], page_count, page, buffer => (buffer, page_count, page)
  | b :: rest, page_count, page, buffer =>
    if 132 < page_count then (buffer, page_count, page)
    else
      let page1 := page ++ [byteHex b]
      if page1.length = 4 then
        convLoop rest (page_count + 1) [] (buffer ++ [mkPageLine page_count page1])
      else
        convLoop rest page_count page1 buffer

/-- The zero page padding loop of convert: appends all zero page lines
until the page count reaches 133. -/
def padTo133 (buffer : List String) (page_count : Nat) : List String × Nat :=
  if h : page_count < 133 then
    padTo133 (buffer ++ ["Page " ++ toString page_count ++ ": 00 00 00 00"]) (page_count + 1)
  else (buffer, page_count)
termination_by 133 - page_count

/-- Models convert from the source, before the final join: the page line
list and the page count.  none models a ValueError escaping get_pwd,
which cannot happen for genuine byte contents. -/
def convertPages (contents : List Nat) : Option (List String × Nat) :=
  match convLoop contents 0 [] [] with
  | (buffer, page_count, page) =>
    let step1 : List String × Nat :=
      if 0 < page.length then
        (buffer ++ [mkPageLine page_count (page ++ List.replicate (4 - page.length) "00")],
         page_count + 1)
      else (buffer, page_count)
    let step2 := padTo133 step1.1 step1.2
    match get_pwd contents with
    | none => none
    | some pwdBytes =>
      some (step2.1 ++
        ["Page " ++ toString step2.2 ++ ": " ++ joinSep spc (pwdBytes.map byteHexU),
         "Page " ++ toString (step2.2 + 1) ++ ": 80 80 00 00"],
        step2.2 + 2)

/-- Models convert from the source: page lines joined by newline, and the
final page count. -/
def convert (contents : List Nat) : Option (String × Nat) :=
  (convertPages contents).map (fun r => (joinSep nl r.1, r.2))

/-- Models assemble_code from the source: the header f-string with the
UID, the page count and the joined page lines interpolated. -/
def assemble_code (contents : List Nat) : Option String :=
  match convert contents with
  | none => none
  | some (conversion, page_count) =>
    some ("Filetype: Flipper NFC device\nVersion: 2\n# Nfc device type can be UID, Mifare Ultralight, Bank card\nDevice type: NTAG215\n# UID, ATQA and SAK are common for all formats\nUID: "
      ++ get_uid contents
      ++ "\nATQA: 44 00\nSAK: 00\n# Mifare Ultralight specific data\nSignature: 00 00 00 00 00 00 00 00 00 00 00 00 00 00 00 00 00 00 00 00 00 00 00 00 00 00 00 00 00 00 00 00\nMifare version: 00 04 04 02 01 00 11 03\nCounter 0: 0\nTearing 0: 00\nCounter 1: 0\nTearing 1: 00\nCounter 2: 0\nTearing 2: 00\nPages total: "
      ++ toString page_count ++ "\n" ++ conversion ++ "\n")

/-- Models get_string_containing: the first line containing the pattern;
none models the IndexError raised when no line matches. -/
def get_string_containing (lines : List String) (sub_str : String) : Option String :=
  (lines.filter (fun s => strContains s sub_str)).head?

/-- Models str.removeprefix for a fixed marker. -/
def removePre (mark s : String) : String :=
  if mark.data.isPrefixOf s.data then String.mk (s.data.drop mark.data.length) else s

/-- Models str.strip: ASCII whitespace dropped from both ends. -/
def pyStrip (s : String) : String :=
  String.mk (((s.data.dropWhile Char.isWhitespace).reverse.dropWhile Char.isWhitespace).reverse)

/-- Models str.removesuffix for a fixed marker. -/
def removeSuf (mark s : String) : String :=
  if mark.data.isSuffixOf s.data then String.mk (s.data.take (s.data.length - mark.data.length)) else s

/-- Models get_uid_bytes: strip the UID marker and surrounding whitespace,
then parse the hex text; none models a ValueError from fromhex. -/
def get_uid_bytes (uid_str : String) : Option (List Nat) :=
  fromhex (removeSuf nl (pyStrip (removePre uidTag uid_str)))

/-- Models format_new_page: the marker, one space plus two uppercase hex
digits per byte, and a newline. -/
def format_new_page (suffix : String) (data : List Nat) : String :=
  suffix ++ joinSep emptyStr (data.map (fun x => spc ++ byteHexU x)) ++ nl

/-- Models replace_page_data: locate the first line containing the marker,
pop it at its index and insert the freshly formatted line there; none
models the IndexError raised when no line matches. -/
def replace_page_data (lines : List String) (pagePre : String) (data : List Nat) :
    Option (List String) :=
  match get_string_containing lines pagePre with
  | none => none
  | some str =>
    let i := lines.indexOf str
    some ((lines.eraseIdx i).insertIdx i (format_new_page pagePre data))

/-- Models save_pwd_to_page. -/
def save_pwd_to_page (lines : List String) (pwd : List Nat) : Option (List String) :=
  replace_page_data lines tag133 pwd

/-- Models save_pack_to_page: pack always carries two bytes at the call
site, modelled with getD. -/
def save_pack_to_page (lines : List String) (pack : List Nat) : Option (List String) :=
  replace_page_data lines tag134 [pack.getD 0 0, pack.getD 1 0, 0, 0]

/-- Models the in memory part of save_ntag215_v2_with_pwd: take the lines
of an .nfc file, read the UID from its header line, derive the password
and rewrite pages 133 and 134; none models any escaping exception. -/
def save_with_pwd (lines : List String) : Option (List String) :=
  match get_string_containing lines uidTag with
  | none => none
  | some uidLine =>
    match get_uid_bytes uidLine with
    | none => none
    | some uid =>
      match save_pwd_to_page lines (calculate_password uid) with
      | none => none
      | some lines1 => save_pack_to_page lines1 [0x80, 0x80]

/-- Split a character list into lines, each keeping its trailing newline:
models the line splitting done by file.readlines. -/
def linesKeep : List Char → List (List Char)
  | [] => []
  | c :: rest =>
    if c = '\n' then [c] :: linesKeep rest
    else
      match linesKeep rest with
      | [] => [[c]]
      | l :: ls => (c :: l) :: ls

/-- Models file.readlines applied to the written text. -/
def readlines (s : String) : List String :=
  (linesKeep s.data).map String.mk

/- Specification side definitions, built from the same source semantics and
   used to state the claims in closed form. -/

/-- The UID bytes actually collected: positions 0, 1, 2, 4, 5, 6, 7 of the
contents, out of range positions silently skipped. -/
def uidBytes (contents : List Nat) : List Nat :=
  uidIdx.filterMap (fun i => contents[i]?)

/-- The usable content, truncated at 532 bytes and zero filled up to
532 bytes. -/
def padded (cs : List Nat) : List Nat :=
  cs.take 532 ++ List.replicate (532 - cs.length) 0

/-- The four bytes of content page j. -/
def group4 (cs : List Nat) (j : Nat) : List Nat :=
  ((padded cs).drop (4 * j)).take 4

/-- Closed form of content page line j. -/
def contentLine (cs : List Nat) (j : Nat) : String :=
  "Page " ++ toString j ++ ": " ++ joinSep spc ((group4 cs j).map byteHexU)

/-- Closed form of the password hex text on page 133. -/
def pwdHexSpec (cs : List Nat) : String :=
  joinSep spc ((calculate_password (uidBytes cs)).map byteHexU)

/-- Closed form of the full page line list produced by convert. -/
def bufSpec (cs : List Nat) : List String :=
  (List.range 133).map (contentLine cs) ++
    ["Page 133: " ++ pwdHexSpec cs, "Page 134: 80 80 00 00"]

/- Basic facts about characters and hex digits, settled by finite checks. -/

theorem mk_append (a b : List Char) : String.mk a ++ String.mk b = String.mk (a ++ b) := rfl

theorem data_mk (a : List Char) : (String.mk a).data = a := rfl

theorem hexDigL_toUpper : ∀ n, n < 16 → Char.toUpper (hexDigL n) = hexDigU n := by decide

theorem hexDigU_props : ∀ n, n < 16 →
    hexVal (hexDigU n) = some n ∧ hexDigU n ≠ ' ' ∧ hexDigU n ≠ '\n' ∧
    hexDigU n ≠ 'P' ∧ Char.isWhitespace (hexDigU n) = false := by decide

theorem upper_append (s t : String) : upper (s ++ t) = upper s ++ upper t := by
  cases s with | mk a => cases t with | mk b =>
  simp [upper, mk_append, data_mk]

theorem joinSep_cons_ne (sep s : String) (rest : List String) (h : rest ≠ []) :
    joinSep sep (s :: rest) = s ++ sep ++ joinSep sep rest := by
  cases rest with
  | nil => exact absurd rfl h
  | cons a l => rfl

theorem upper_joinSep (sep : String) (l : List String) :
    upper (joinSep sep l) = joinSep (upper sep) (l.map upper) := by
  induction l with
  | nil => rfl
  | cons s rest ih =>
    cases rest with
    | nil => rfl
    | cons a t =>
      rw [joinSep_cons_ne sep s (a :: t) (by simp), List.map_cons,
        joinSep_cons_ne (upper sep) (upper s) ((a :: t).map upper) (by simp),
        upper_append, upper_append, ih]

theorem upper_byteHex (b : Nat) (hb : b < 256) : upper (byteHex b) = byteHexU b := by
  have h1 : b / 16 < 16 := by omega
  have h2 : b % 16 < 16 := by omega
  simp [upper, byteHex, byteHexU, data_mk, hexDigL_toUpper _ h1, hexDigL_toUpper _ h2]

/-- The filtered characters of a space join are the concatenation of the
filtered characters of the parts. -/
theorem filter_joinSep_spc (l : List String) :
    (joinSep spc l).data.filter (fun cs => decide (cs ≠ ' ')) =
      (l.map (fun s => s.data.filter (fun cs => decide (cs ≠ ' ')))).flatten := by
  induction l with
  | nil => rfl
  | cons s rest ih =>
    cases rest with
    | nil => simp [joinSep]
    | cons a t =>
      rw [joinSep_cons_ne spc s (a :: t) (by simp), String.data_append,
        String.data_append, List.filter_append, List.filter_append, ih]
      simp [spc]

/-- The hex pair characters of a byte list. -/
def pairChars (bs : List Nat) : List Char :=
  (bs.map (fun b => [hexDigU (b / 16), hexDigU (b % 16)])).flatten

theorem pairChars_cons (b : Nat) (t : List Nat) :
    pairChars (b :: t) = hexDigU (b / 16) :: hexDigU (b % 16) :: pairChars t := by
  simp [pairChars]

theorem parseHexPairs_pairChars (bs : List Nat) (hb : ∀ b ∈ bs, b < 256) :
    parseHexPairs (pairChars bs) = some bs := by
  induction bs with
  | nil => rfl
  | cons b t ih =>
    have hblt : b < 256 := hb b (by simp)
    have h1 : b / 16 < 16 := by omega
    have h2 : b % 16 < 16 := by omega
    have ht := ih (fun x hx => hb x (by simp [hx]))
    rw [pairChars_cons, parseHexPairs, (hexDigU_props _ h1).1, (hexDigU_props _ h2).1, ht]
    have hb16 : 16 * (b / 16) + b % 16 = b := by omega
    simp [hb16]

theorem pairChars_append (a b : List Nat) : pairChars (a ++ b) = pairChars a ++ pairChars b := by
  simp [pairChars]

theorem upper_spc : upper spc = spc := by decide

theorem filter_upper_sliceHex (cs : List Nat) (hb : ∀ b ∈ cs, b < 256) (i : Nat) :
    (upper (sliceHex cs i)).data.filter (fun ch => decide (ch ≠ ' ')) =
      pairChars (Option.toList cs[i]?) := by
  unfold sliceHex
  by_cases h : i < cs.length
  · rw [dif_pos h]
    have hb2 : cs[i] < 256 := hb _ (List.getElem_mem h)
    have h1 : cs[i] / 16 < 16 := by omega
    have h2 : cs[i] % 16 < 16 := by omega
    rw [upper_byteHex _ hb2, List.getElem?_eq_getElem h]
    simp [byteHexU, data_mk, pairChars, List.filter,
      (hexDigU_props _ h1).2.1, (hexDigU_props _ h2).2.1]
  · rw [dif_neg h, List.getElem?_eq_none (by omega)]
    rfl

theorem fromhex_get_uid (cs : List Nat) (hb : ∀ b ∈ cs, b < 256) :
    fromhex (get_uid cs) = some (uidBytes cs) := by
  have key : ∀ idxs : List Nat,
      ((idxs.map (sliceHex cs)).map
          (fun s => (upper s).data.filter (fun ch => decide (ch ≠ ' ')))).flatten
        = pairChars (idxs.filterMap (fun i => cs[i]?)) := by
    intro idxs
    induction idxs with
    | nil => rfl
    | cons i t ih =>
      rw [List.map_cons, List.map_cons, List.flatten_cons, ih,
        filter_upper_sliceHex cs hb i, List.filterMap_cons]
      cases hx : cs[i]? with
      | none => simp [pairChars]
      | some b =>
        rw [← pairChars_append]
        simp
  have hmem : ∀ b ∈ uidBytes cs, b < 256 := by
    intro b hbmem
    unfold uidBytes at hbmem
    obtain ⟨i, _, hi⟩ := List.mem_filterMap.mp hbmem
    exact hb b (List.getElem?_mem hi)
  unfold fromhex get_uid
  rw [upper_joinSep, upper_spc, filter_joinSep_spc, List.map_map]
  have hcomp :
      ((fun s => s.data.filter (fun ch => decide (ch ≠ ' '))) ∘ upper)
        = fun s => (upper s).data.filter (fun ch => decide (ch ≠ ' ')) := rfl
  rw [hcomp, key]
  have hfold : List.filterMap (fun i => cs[i]?) uidIdx = uidBytes cs := rfl
  rw [hfold, parseHexPairs_pairChars _ hmem]

/-- get_pwd always succeeds and derives from the collected UID bytes. -/
theorem get_pwd_eq (cs : List Nat) (hb : ∀ b ∈ cs, b < 256) :
    get_pwd cs = some (calculate_password (uidBytes cs)) := by
  unfold get_pwd
  rw [fromhex_get_uid cs hb]
  rfl

/- Characterization of the byte loop of convert. -/

theorem range_succ_map_shift {A : Type} (f : Nat → A) (m : Nat) :
    (List.range (m + 1)).map f = f 0 :: (List.range m).map (fun j => f (j + 1)) := by
  rw [List.range_succ_eq_map, List.map_cons, List.map_map]
  rfl


theorem convLoop_break (l : List Nat) (page buffer : List String) :
    convLoop l 133 page buffer = (buffer, 133, page) := by
  cases l with
  | nil => rfl
  | cons b rest => simp [convLoop]

theorem convLoop_step4 (b0 b1 b2 b3 : Nat) (rest : List Nat) (pc : Nat)
    (buffer : List String) (h : pc ≤ 132) :
    convLoop (b0 :: b1 :: b2 :: b3 :: rest) pc [] buffer =
      convLoop rest (pc + 1) []
        (buffer ++ [mkPageLine pc [byteHex b0, byteHex b1, byteHex b2, byteHex b3]]) := by
  have hn : ¬ 132 < pc := by omega
  simp [convLoop, hn]

theorem convLoop_small (l : List Nat) : ∀ (pc : Nat) (page buffer : List String),
    pc ≤ 132 → page.length + l.length ≤ 3 →
    convLoop l pc page buffer = (buffer, pc, page ++ l.map byteHex) := by
  induction l with
  | nil =>
    intro pc page buffer h1 h2
    simp [convLoop]
  | cons b rest ih =>
    intro pc page buffer h1 h2
    have hn : ¬ 132 < pc := by omega
    have hlen : ¬ ((page ++ [byteHex b]).length = 4) := by
      simp only [List.length_append, List.length_cons, List.length_nil]
      simp only [List.length_cons] at h2
      omega
    simp only [convLoop, if_neg hn, if_neg hlen]
    rw [ih pc (page ++ [byteHex b]) buffer h1
      (by simp only [List.length_append, List.length_cons, List.length_nil] at h2 ⊢; omega)]
    simp

theorem convLoop_groups (n : Nat) : ∀ (l : List Nat) (pc : Nat) (buffer : List String),
    4 * n ≤ l.length → pc + n ≤ 133 →
    convLoop l pc [] buffer =
      convLoop (l.drop (4 * n)) (pc + n) [] (buffer ++
        (List.range n).map
          (fun j => mkPageLine (pc + j) (((l.drop (4 * j)).take 4).map byteHex))) := by
  induction n with
  | zero =>
    intro l pc buffer h1 h2
    simp
  | succ m ih =>
    intro l pc buffer h1 h2
    rcases l with _ | ⟨b0, _ | ⟨b1, _ | ⟨b2, _ | ⟨b3, rest⟩⟩⟩⟩ <;>
      simp only [List.length_nil, List.length_cons] at h1
    · omega
    · omega
    · omega
    · omega
    · have hdrop : ∀ j : Nat,
          (b0 :: b1 :: b2 :: b3 :: rest).drop (4 * (j + 1)) = rest.drop (4 * j) := by
        intro j
        rw [show 4 * (j + 1) = 4 + 4 * j by ring, ← List.drop_drop]
        rfl
      have hbuf : buffer ++ (List.range (m + 1)).map
            (fun j => mkPageLine (pc + j)
              ((((b0 :: b1 :: b2 :: b3 :: rest).drop (4 * j)).take 4).map byteHex))
          = (buffer ++ [mkPageLine pc [byteHex b0, byteHex b1, byteHex b2, byteHex b3]]) ++
            (List.range m).map
              (fun j => mkPageLine (pc + 1 + j) (((rest.drop (4 * j)).take 4).map byteHex)) := by
        rw [range_succ_map_shift, List.append_cons]
        have h0 : mkPageLine (pc + 0)
            ((((b0 :: b1 :: b2 :: b3 :: rest).drop (4 * 0)).take 4).map byteHex)
            = mkPageLine pc [byteHex b0, byteHex b1, byteHex b2, byteHex b3] := rfl
        rw [h0]
        congr 1
        apply List.map_congr_left
        intro j hj
        show mkPageLine (pc + (j + 1))
            ((((b0 :: b1 :: b2 :: b3 :: rest).drop (4 * (j + 1))).take 4).map byteHex) = _
        rw [hdrop j, show pc + (j + 1) = pc + 1 + j by omega]
      rw [convLoop_step4 b0 b1 b2 b3 rest pc buffer (by omega)]
      rw [ih rest (pc + 1) _ (by omega) (by omega)]
      rw [hdrop m, show pc + (m + 1) = pc + 1 + m by omega, hbuf]

theorem padTo133_eq (k : Nat) : ∀ (buffer : List String) (pc : Nat), pc + k = 133 →
    padTo133 buffer pc =
      (buffer ++ (List.range k).map
        (fun j => "Page " ++ toString (pc + j) ++ ": 00 00 00 00"), 133) := by
  induction k with
  | zero =>
    intro buffer pc h
    have hpc : pc = 133 := by omega
    subst hpc
    rw [padTo133, dif_neg (by omega)]
    simp
  | succ m ih =>
    intro buffer pc h
    rw [padTo133, dif_pos (by omega), ih _ (pc + 1) (by omega)]
    have hlist : buffer ++ (List.range (m + 1)).map
          (fun j => "Page " ++ toString (pc + j) ++ ": 00 00 00 00")
        = (buffer ++ ["Page " ++ toString pc ++ ": 00 00 00 00"]) ++
          (List.range m).map
            (fun j => "Page " ++ toString (pc + 1 + j) ++ ": 00 00 00 00") := by
      rw [range_succ_map_shift, List.append_cons]
      have h0 : ("Page " ++ toString (pc + 0) ++ ": 00 00 00 00") =
          ("Page " ++ toString pc ++ ": 00 00 00 00") := rfl
      rw [h0]
      congr 1
      apply List.map_congr_left
      intro j hj
      rw [show pc + (j + 1) = pc + 1 + j by omega]
    rw [hlist]

/- Closed forms for the four byte groups of the padded content. -/

theorem group4_content (cs : List Nat) (j : Nat)
    (h1 : 4 * j + 4 ≤ cs.length) (h2 : 4 * j + 4 ≤ 532) :
    group4 cs j = (cs.drop (4 * j)).take 4 := by
  unfold group4 padded
  rw [List.drop_append_of_le_length
    (by rw [List.length_take]; omega)]
  rw [List.take_append_of_le_length
    (by rw [List.length_drop, List.length_take]; omega)]
  rw [List.drop_take, List.take_take]
  congr 1
  omega

theorem group4_tail (cs : List Nat) (j : Nat)
    (h1 : cs.length ≤ 4 * j + 4) (h2 : 4 * j + 4 ≤ 532) :
    group4 cs j = cs.drop (4 * j) ++ List.replicate (4 - (cs.length - 4 * j)) 0 := by
  unfold group4 padded
  rw [List.take_of_length_le (show cs.length ≤ 532 by omega)]
  rw [List.drop_append_eq_append_drop, List.drop_replicate]
  rw [List.take_append_eq_append_take, List.take_replicate]
  rw [List.take_of_length_le (show (cs.drop (4 * j)).length ≤ 4 by
    rw [List.length_drop]; omega)]
  congr 2
  rw [List.length_drop]
  omega

theorem group4_zero (cs : List Nat) (j : Nat)
    (h1 : cs.length ≤ 4 * j) (h2 : 4 * j + 4 ≤ 532) :
    group4 cs j = List.replicate 4 0 := by
  rw [group4_tail cs j (by omega) h2]
  rw [List.drop_of_length_le (by omega)]
  rw [show cs.length - 4 * j = 0 by omega]
  simp

/- Closed form for one produced page line. -/

theorem byteHex_zero : byteHex 0 = "00" := rfl

theorem byteHexU_zero : byteHexU 0 = "00" := rfl

theorem mkPageLine_eq (j : Nat) (g : List Nat) (hb : ∀ b ∈ g, b < 256) :
    mkPageLine j (g.map byteHex) =
      "Page " ++ toString j ++ ": " ++ joinSep spc (g.map byteHexU) := by
  unfold mkPageLine
  rw [upper_joinSep, upper_spc, List.map_map]
  have hmap : List.map (upper ∘ byteHex) g = List.map byteHexU g := by
    apply List.map_congr_left
    intro b hbm
    exact upper_byteHex b (hb b hbm)
  rw [hmap]

theorem contentLine_zero (cs : List Nat) (j : Nat)
    (h1 : cs.length ≤ 4 * j) (h2 : 4 * j + 4 ≤ 532) :
    contentLine cs j = "Page " ++ toString j ++ ": 00 00 00 00" := by
  unfold contentLine
  rw [group4_zero cs j h1 h2]
  rw [String.append_assoc]
  congr 1

/- Characterization of convertPages. -/

theorem contentLines_eq (cs : List Nat) (hb : ∀ b ∈ cs, b < 256) (k : Nat)
    (hk : 4 * k ≤ cs.length) (hk2 : k ≤ 133) :
    (List.range k).map (fun j => mkPageLine j (((cs.drop (4 * j)).take 4).map byteHex))
      = (List.range k).map (contentLine cs) := by
  apply List.map_congr_left
  intro j hj
  have hj2 : j < k := List.mem_range.mp hj
  rw [mkPageLine_eq j _ (fun b hbm => hb b (List.drop_subset _ _ (List.take_subset _ _ hbm)))]
  unfold contentLine
  rw [group4_content cs j (by omega) (by omega)]

theorem zeroLines_eq (cs : List Nat) (p k : Nat)
    (hp : cs.length ≤ 4 * p) (hpk : p + k = 133) :
    (List.range k).map (fun j => "Page " ++ toString (p + j) ++ ": 00 00 00 00")
      = (List.range k).map (fun j => contentLine cs (p + j)) := by
  apply List.map_congr_left
  intro j hj
  have hj2 : j < k := List.mem_range.mp hj
  rw [contentLine_zero cs (p + j) (by omega) (by omega)]

theorem convertPages_eq_long (cs : List Nat) (hb : ∀ b ∈ cs, b < 256)
    (hlen : 532 ≤ cs.length) :
    convertPages cs = some (bufSpec cs, 135) := by
  have hloop := convLoop_groups 133 cs 0 [] (by omega) (by omega)
  rw [convLoop_break] at hloop
  simp only [Nat.zero_add, List.nil_append] at hloop
  unfold convertPages
  rw [hloop]
  simp only [List.length_nil, Nat.lt_irrefl, if_false]
  rw [padTo133_eq 0 _ 133 (by omega)]
  rw [get_pwd_eq cs hb]
  simp only [List.range_zero, List.map_nil, List.append_nil]
  rw [contentLines_eq cs hb 133 (by omega) (by omega)]
  have e1 : "Page " ++ toString (133 : Nat) ++ ": " = "Page 133: " := rfl
  have e2 : "Page " ++ toString (133 + 1 : Nat) ++ ": 80 80 00 00" = "Page 134: 80 80 00 00" := rfl
  rw [e1, e2]
  unfold bufSpec pwdHexSpec
  rfl

theorem convertPages_eq_short (cs : List Nat) (hb : ∀ b ∈ cs, b < 256)
    (hlen : cs.length < 532) :
    convertPages cs = some (bufSpec cs, 135) := by
  have hfull : cs.length / 4 ≤ 132 := by omega
  have hloop := convLoop_groups (cs.length / 4) cs 0 [] (by omega) (by omega)
  rw [convLoop_small (cs.drop (4 * (cs.length / 4))) (0 + cs.length / 4) [] _
    (by omega) (by rw [List.length_nil, List.length_drop]; omega)] at hloop
  simp only [Nat.zero_add, List.nil_append] at hloop
  by_cases hrem : cs.length % 4 = 0
  · have htail : cs.drop (4 * (cs.length / 4)) = [] :=
      List.length_eq_zero.mp (by rw [List.length_drop]; omega)
    rw [htail] at hloop
    unfold convertPages
    rw [hloop]
    simp only [List.map_nil, List.length_nil, Nat.lt_irrefl, if_false]
    rw [padTo133_eq (133 - cs.length / 4) _ (cs.length / 4) (by omega)]
    rw [get_pwd_eq cs hb]
    simp only [List.append_assoc]
    rw [contentLines_eq cs hb (cs.length / 4) (by omega) (by omega)]
    rw [zeroLines_eq cs (cs.length / 4) (133 - cs.length / 4) (by omega) (by omega)]
    have e1 : "Page " ++ toString (133 : Nat) ++ ": " = "Page 133: " := rfl
    have e2 : "Page " ++ toString (133 + 1 : Nat) ++ ": 80 80 00 00" = "Page 134: 80 80 00 00" := rfl
    rw [e1, e2]
    unfold bufSpec pwdHexSpec
    rw [show (133 : Nat) = cs.length / 4 + (133 - cs.length / 4) by omega, List.range_add]
    rw [show cs.length / 4 + (133 - cs.length / 4) = 133 by omega]
    simp [List.map_append, List.map_map, Function.comp, List.append_assoc]
  · have hplen : ((cs.drop (4 * (cs.length / 4))).map byteHex).length = cs.length % 4 := by
      rw [List.length_map, List.length_drop]; omega
    unfold convertPages
    rw [hloop]
    simp only [hplen, if_pos (by omega : 0 < cs.length % 4)]
    rw [padTo133_eq (133 - (cs.length / 4 + 1)) _ (cs.length / 4 + 1) (by omega)]
    rw [get_pwd_eq cs hb]
    simp only [List.append_assoc]
    rw [contentLines_eq cs hb (cs.length / 4) (by omega) (by omega)]
    rw [zeroLines_eq cs (cs.length / 4 + 1) (133 - (cs.length / 4 + 1)) (by omega) (by omega)]
    have hrep : List.replicate (4 - cs.length % 4) "00"
        = (List.replicate (4 - cs.length % 4) 0).map byteHex := by
      rw [List.map_replicate, byteHex_zero]
    rw [hrep, ← List.map_append]
    rw [mkPageLine_eq (cs.length / 4) _
      (by
        intro b hbm
        rcases List.mem_append.mp hbm with hmem | hmem
        · exact hb b (List.drop_subset _ _ hmem)
        · rw [List.eq_of_mem_replicate hmem]; omega)]
    have hpart : "Page " ++ toString (cs.length / 4) ++ ": " ++
        joinSep spc ((cs.drop (4 * (cs.length / 4)) ++
          List.replicate (4 - cs.length % 4) 0).map byteHexU) = contentLine cs (cs.length / 4) := by
      unfold contentLine
      rw [group4_tail cs (cs.length / 4) (by omega) (by omega)]
      rw [show cs.length - 4 * (cs.length / 4) = cs.length % 4 by omega]
    rw [hpart]
    have e1 : "Page " ++ toString (133 : Nat) ++ ": " = "Page 133: " := rfl
    have e2 : "Page " ++ toString (133 + 1 : Nat) ++ ": 80 80 00 00" = "Page 134: 80 80 00 00" := rfl
    rw [e1, e2]
    unfold bufSpec pwdHexSpec
    rw [show (133 : Nat) = (cs.length / 4 + 1) + (132 - cs.length / 4) by omega, List.range_add]
    rw [show (cs.length / 4 + 1) + (132 - cs.length / 4) = 133 by omega]
    rw [List.range_succ]
    simp [List.map_append, List.map_map, Function.comp, List.append_assoc]

theorem convertPages_eq (cs : List Nat) (hb : ∀ b ∈ cs, b < 256) :
    convertPages cs = some (bufSpec cs, 135) := by
  by_cases hlen : 532 ≤ cs.length
  · exact convertPages_eq_long cs hb hlen
  · exact convertPages_eq_short cs hb (by omega)

/- The line replacement performed by replace_page_data. -/

theorem eraseIdx_insertIdx_eq_set {A : Type} (l : List A) :
    ∀ (i : Nat) (x : A), i < l.length → (l.eraseIdx i).insertIdx i x = l.set i x := by
  induction l with
  | nil =>
    intro i x h
    simp at h
  | cons a t ih =>
    intro i x h
    cases i with
    | zero => rfl
    | succ i =>
      simp only [List.eraseIdx_cons_succ, List.insertIdx_succ_cons, List.set_cons_succ]
      rw [ih i x (by simpa using h)]

theorem first_filter_spec (p : String → Bool) (lines : List String) (str : String)
    (h : (lines.filter p).head? = some str) :
    lines.indexOf str = lines.findIdx p ∧ lines.findIdx p < lines.length ∧
      lines[lines.findIdx p]? = some str ∧ p str = true := by
  induction lines with
  | nil => simp [List.filter] at h
  | cons a t ih =>
    by_cases hp : p a = true
    · rw [List.filter_cons, if_pos hp] at h
      simp only [List.head?_cons, Option.some.injEq] at h
      subst h
      refine ⟨?_, ?_, ?_, hp⟩
      · rw [List.indexOf_cons_self, List.findIdx_cons, hp, cond_true]
      · rw [List.findIdx_cons, hp, cond_true]
        simp
      · rw [List.findIdx_cons, hp, cond_true]
        simp
    · rw [List.filter_cons, if_neg hp] at h
      obtain ⟨h1, h2, h3, h4⟩ := ih h
      have hpa : p a = false := by
        rcases Bool.dichotomy (p a) with hx | hx
        · exact hx
        · exact absurd hx hp
      have hane : (a == str) = false := by
        apply beq_eq_false_iff_ne.mpr
        intro he
        rw [he, h4] at hpa
        cases hpa
      refine ⟨?_, ?_, ?_, h4⟩
      · rw [List.indexOf_cons, hane, cond_false, List.findIdx_cons, hpa, cond_false, h1]
      · rw [List.findIdx_cons, hpa, cond_false]
        simp only [List.length_cons]
        omega
      · rw [List.findIdx_cons, hpa, cond_false]
        simpa using h3

theorem replace_page_data_eq (lines : List String) (pagePre : String) (data : List Nat)
    (h : ∃ l ∈ lines, strContains l pagePre = true) :
    replace_page_data lines pagePre data =
      some (lines.set (lines.findIdx (fun s => strContains s pagePre))
        (format_new_page pagePre data)) := by
  obtain ⟨l0, hl0, hc0⟩ := h
  obtain ⟨str, hstr⟩ : ∃ str,
      (lines.filter (fun s => strContains s pagePre)).head? = some str := by
    cases hx : (lines.filter (fun s => strContains s pagePre)).head? with
    | none =>
      exfalso
      have hmem : l0 ∈ lines.filter (fun s => strContains s pagePre) :=
        List.mem_filter.mpr ⟨hl0, hc0⟩
      rw [List.head?_eq_none_iff.mp hx] at hmem
      cases hmem
    | some str => exact ⟨str, rfl⟩
  obtain ⟨h1, h2, h3, h4⟩ := first_filter_spec _ lines str hstr
  unfold replace_page_data get_string_containing
  rw [hstr]
  simp only []
  rw [h1, eraseIdx_insertIdx_eq_set lines _ _ h2]

/- Substring search facts. -/

theorem not_contains_of_missing (s sub : String) (ch : Char)
    (hsub : ch ∈ sub.data) (hs : ch ∉ s.data) : strContains s sub = false := by
  unfold strContains
  rw [decide_eq_false_iff_not]
  intro hinf
  exact hs (hinf.subset hsub)

theorem contains_of_isPre (s sub : String) (h : sub.data <+: s.data) :
    strContains s sub = true := by
  unfold strContains
  rw [decide_eq_true_iff]
  exact h.isInfix

theorem head_unique_front {A : Type} [DecidableEq A] (x : A) (s l : List A)
    (hx : x ∉ l) (hinf : x :: s <:+: x :: l) : x :: s <+: x :: l := by
  obtain ⟨pre, suf, hps⟩ := hinf
  cases pre with
  | nil =>
    exact ⟨suf, by simpa using hps⟩
  | cons y pre2 =>
    exfalso
    simp only [List.cons_append, List.cons.injEq] at hps
    obtain ⟨hyx, hrest⟩ := hps
    apply hx
    rw [← hrest]
    simp [hyx]

theorem not_prefix_digits (e1 e2 e3 : Char) (d junk : List Char) (hlen : d.length ≤ 3)
    (h1 : e1 ≠ ':') (h2 : e2 ≠ ':') (h3 : e3 ≠ ':') (hne : d ≠ [e1, e2, e3]) :
    ¬ ([e1, e2, e3, ':'] <+: (d ++ ':' :: junk)) := by
  rintro ⟨t, ht⟩
  rcases d with _ | ⟨a, _ | ⟨b, _ | ⟨c2, _ | ⟨d2, rest⟩⟩⟩⟩
  · simp only [List.nil_append, List.cons_append, List.cons.injEq] at ht
    exact h1 ht.1
  · simp only [List.cons_append, List.nil_append, List.cons.injEq] at ht
    exact h2 ht.2.1
  · simp only [List.cons_append, List.nil_append, List.cons.injEq] at ht
    exact h3 ht.2.2.1
  · simp only [List.cons_append, List.nil_append, List.cons.injEq] at ht
    exact hne (by rw [ht.1, ht.2.1, ht.2.2.1])
  · simp only [List.length_cons] at hlen
    omega

/- Character inventories of the produced text. -/

/-- Characters that can appear in the data part of a page line or a UID
line: decimal digits, uppercase hex letters, space and colon. -/
def tailSafe (ch : Char) : Bool :=
  (48 ≤ ch.toNat && ch.toNat ≤ 57) || (65 ≤ ch.toNat && ch.toNat ≤ 70) ||
    ch = ' ' || ch = ':'

theorem tailSafe_hexDigU : ∀ n, n < 16 → tailSafe (hexDigU n) = true := by decide

theorem joinSep_chars (sep : String) (l : List String) :
    ∀ ch ∈ (joinSep sep l).data, (∃ s ∈ l, ch ∈ s.data) ∨ ch ∈ sep.data := by
  induction l with
  | nil =>
    intro ch hch
    cases hch
  | cons s rest ih =>
    cases rest with
    | nil =>
      intro ch hch
      exact Or.inl ⟨s, by simp, hch⟩
    | cons a t =>
      intro ch hch
      rw [joinSep_cons_ne sep s (a :: t) (by simp), String.data_append,
        String.data_append] at hch
      rcases List.mem_append.mp hch with hch1 | hch1
      · rcases List.mem_append.mp hch1 with hch2 | hch2
        · exact Or.inl ⟨s, by simp, hch2⟩
        · exact Or.inr hch2
      · rcases ih ch hch1 with ⟨s2, hs2, hch2⟩ | hch2
        · exact Or.inl ⟨s2, List.mem_cons_of_mem s hs2, hch2⟩
        · exact Or.inr hch2

theorem byteHexU_chars (b : Nat) (hb : b < 256) :
    ∀ ch ∈ (byteHexU b).data, tailSafe ch = true := by
  intro ch hch
  have h1 : b / 16 < 16 := by omega
  have h2 : b % 16 < 16 := by omega
  rcases List.mem_pair.mp hch with h | h <;> subst h
  · exact tailSafe_hexDigU _ h1
  · exact tailSafe_hexDigU _ h2

theorem hexJoin_chars (bs : List Nat) (hb : ∀ b ∈ bs, b < 256) :
    ∀ ch ∈ (joinSep spc (bs.map byteHexU)).data, tailSafe ch = true := by
  intro ch hch
  rcases joinSep_chars spc _ ch hch with ⟨s, hs, hch2⟩ | hch2
  · obtain ⟨b, hbmem, rfl⟩ := List.mem_map.mp hs
    exact byteHexU_chars b (hb b hbmem) ch hch2
  · have hsp : ch = ' ' := by
      have : spc.data = [' '] := rfl
      rw [this] at hch2
      simpa using hch2
    subst hsp
    decide

theorem get_uid_chars (cs : List Nat) (hb : ∀ b ∈ cs, b < 256) :
    ∀ ch ∈ (get_uid cs).data, tailSafe ch = true := by
  intro ch hch
  unfold get_uid at hch
  rw [upper_joinSep, upper_spc] at hch
  rcases joinSep_chars spc _ ch hch with ⟨s, hs, hch2⟩ | hch2
  · obtain ⟨s0, hs0, rfl⟩ := List.mem_map.mp hs
    obtain ⟨i, hi, rfl⟩ := List.mem_map.mp hs0
    unfold sliceHex at hch2
    by_cases hir : i < cs.length
    · rw [dif_pos hir, upper_byteHex _ (hb _ (List.getElem_mem hir))] at hch2
      exact byteHexU_chars _ (hb _ (List.getElem_mem hir)) ch hch2
    · rw [dif_neg hir] at hch2
      cases hch2
  · have hsp : ch = ' ' := by
      have : spc.data = [' '] := rfl
      rw [this] at hch2
      simpa using hch2
    subst hsp
    decide

theorem calculate_password_bytes (uid : List Nat) (hb : ∀ b ∈ uid, b < 256) :
    ∀ x ∈ calculate_password uid, x < 256 := by
  intro x hx
  unfold calculate_password at hx
  by_cases h : uid.length = 7
  · rw [dif_pos h] at hx
    have g1 : uid[1] < 256 := hb _ (List.getElem_mem (by omega))
    have g2 : uid[2] < 256 := hb _ (List.getElem_mem (by omega))
    have g3 : uid[3] < 256 := hb _ (List.getElem_mem (by omega))
    have g4 : uid[4] < 256 := hb _ (List.getElem_mem (by omega))
    have g5 : uid[5] < 256 := hb _ (List.getElem_mem (by omega))
    have g6 : uid[6] < 256 := hb _ (List.getElem_mem (by omega))
    have hxor : ∀ a b : Nat, a < 256 → b < 256 → a ^^^ b < 256 := by
      intro a b ha hbb
      have hp := Nat.xor_lt_two_pow (show a < 2 ^ 8 by omega) (show b < 2 ^ 8 by omega)
      omega
    simp only [List.mem_cons, List.not_mem_nil, or_false] at hx
    rcases hx with hx | hx | hx | hx <;> subst hx
    · exact hxor _ _ (hxor _ _ g1 g3) (by norm_num)
    · exact hxor _ _ (hxor _ _ g2 g4) (by norm_num)
    · exact hxor _ _ (hxor _ _ g3 g5) (by norm_num)
    · exact hxor _ _ (hxor _ _ g4 g6) (by norm_num)
  · rw [dif_neg h] at hx
    cases hx

/- The assembled document in closed form. -/

/-- The eighteen header lines of the assembled document, without their
newline terminators. -/
def headerCores (cs : List Nat) : List String :=
  ["Filetype: Flipper NFC device",
   "Version: 2",
   "# Nfc device type can be UID, Mifare Ultralight, Bank card",
   "Device type: NTAG215",
   "# UID, ATQA and SAK are common for all formats",
   "UID: " ++ get_uid cs,
   "ATQA: 44 00",
   "SAK: 00",
   "# Mifare Ultralight specific data",
   "Signature: 00 00 00 00 00 00 00 00 00 00 00 00 00 00 00 00 00 00 00 00 00 00 00 00 00 00 00 00 00 00 00 00",
   "Mifare version: 00 04 04 02 01 00 11 03",
   "Counter 0: 0",
   "Tearing 0: 00",
   "Counter 1: 0",
   "Tearing 1: 00",
   "Counter 2: 0",
   "Tearing 2: 00",
   "Pages total: " ++ toString (135 : Nat)]

/-- Closed form of the document string produced by assemble_code. -/
def docStr (cs : List Nat) : String :=
  joinSep nl (headerCores cs ++ bufSpec cs) ++ nl

/-- The document lines as they come back from readlines: 18 header lines
followed by 135 page lines, each ending in a newline. -/
def docLines (cs : List Nat) : List String :=
  (headerCores cs ++ bufSpec cs).map (fun s => s ++ nl)

theorem joinSep_cons (sep s a : String) (rest : List String) :
    joinSep sep (s :: a :: rest) = s ++ sep ++ joinSep sep (a :: rest) := rfl

theorem bufSpec_ne_nil (cs : List Nat) : bufSpec cs ≠ [] := by
  unfold bufSpec
  intro h
  have := congrArg List.length h
  simp at this

theorem assemble_code_eq (cs : List Nat) (hb : ∀ b ∈ cs, b < 256) :
    assemble_code cs = some (docStr cs) := by
  unfold assemble_code convert
  rw [convertPages_eq cs hb]
  show some _ = _
  congr 1
  unfold docStr headerCores
  simp only [List.cons_append, List.nil_append]
  rw [joinSep_cons, joinSep_cons, joinSep_cons, joinSep_cons, joinSep_cons, joinSep_cons,
    joinSep_cons, joinSep_cons, joinSep_cons, joinSep_cons, joinSep_cons, joinSep_cons,
    joinSep_cons, joinSep_cons, joinSep_cons, joinSep_cons, joinSep_cons,
    joinSep_cons_ne nl _ _ (bufSpec_ne_nil cs)]
  have hsplit1 :
      ("Filetype: Flipper NFC device\nVersion: 2\n# Nfc device type can be UID, Mifare Ultralight, Bank card\nDevice type: NTAG215\n# UID, ATQA and SAK are common for all formats\nUID: " : String)
      = "Filetype: Flipper NFC device" ++ nl ++ "Version: 2" ++ nl ++
        "# Nfc device type can be UID, Mifare Ultralight, Bank card" ++ nl ++
        "Device type: NTAG215" ++ nl ++
        "# UID, ATQA and SAK are common for all formats" ++ nl ++ "UID: " := rfl
  have hsplit2 :
      ("\nATQA: 44 00\nSAK: 00\n# Mifare Ultralight specific data\nSignature: 00 00 00 00 00 00 00 00 00 00 00 00 00 00 00 00 00 00 00 00 00 00 00 00 00 00 00 00 00 00 00 00\nMifare version: 00 04 04 02 01 00 11 03\nCounter 0: 0\nTearing 0: 00\nCounter 1: 0\nTearing 1: 00\nCounter 2: 0\nTearing 2: 00\nPages total: " : String)
      = nl ++ "ATQA: 44 00" ++ nl ++ "SAK: 00" ++ nl ++
        "# Mifare Ultralight specific data" ++ nl ++
        "Signature: 00 00 00 00 00 00 00 00 00 00 00 00 00 00 00 00 00 00 00 00 00 00 00 00 00 00 00 00 00 00 00 00" ++ nl ++
        "Mifare version: 00 04 04 02 01 00 11 03" ++ nl ++ "Counter 0: 0" ++ nl ++
        "Tearing 0: 00" ++ nl ++ "Counter 1: 0" ++ nl ++ "Tearing 1: 00" ++ nl ++
        "Counter 2: 0" ++ nl ++ "Tearing 2: 00" ++ nl ++ "Pages total: " := rfl
  rw [hsplit1, hsplit2]
  have hnl : ("\n" : String) = nl := rfl
  rw [hnl]
  simp only [String.append_assoc]

/- readlines applied to a newline joined document. -/

theorem linesKeep_append (l : List Char) (rest : List Char) (hl : '\n' ∉ l) :
    linesKeep (l ++ '\n' :: rest) = (l ++ ['\n']) :: linesKeep rest := by
  induction l with
  | nil => simp [linesKeep]
  | cons c t ih =>
    have hc : ¬ (c = '\n') := fun h => hl (h ▸ List.mem_cons_self c t)
    rw [List.cons_append, linesKeep]
    rw [if_neg hc, ih (fun hm => hl (List.mem_cons_of_mem c hm))]
    simp

theorem string_mk_append_nl (s : String) : String.mk (s.data ++ ['\n']) = s ++ nl := by
  apply String.ext
  rw [String.data_append]
  rfl

theorem readlines_joinSep (L : List String) (hL : ∀ s ∈ L, '\n' ∉ s.data) (hne : L ≠ []) :
    readlines (joinSep nl L ++ nl) = L.map (fun s => s ++ nl) := by
  induction L with
  | nil => exact absurd rfl hne
  | cons s rest ih =>
    have hs : '\n' ∉ s.data := hL s (List.mem_cons_self s rest)
    cases rest with
    | nil =>
      unfold readlines
      have hdata : (joinSep nl [s] ++ nl).data = s.data ++ '\n' :: [] := by
        rw [String.data_append]
        rfl
      rw [hdata, linesKeep_append s.data [] hs]
      simp only [linesKeep, List.map_cons, List.map_nil]
      rw [string_mk_append_nl]
    | cons a t =>
      have hdata : (joinSep nl (s :: a :: t) ++ nl).data
          = s.data ++ '\n' :: (joinSep nl (a :: t) ++ nl).data := by
        rw [joinSep_cons, String.data_append, String.data_append, String.data_append,
          String.data_append]
        have hnld : nl.data = ['\n'] := rfl
        rw [hnld]
        simp [List.append_assoc]
      unfold readlines
      rw [hdata, linesKeep_append s.data _ hs, List.map_cons, string_mk_append_nl,
        List.map_cons]
      congr 1
      exact ih (fun x hx => hL x (List.mem_cons_of_mem s hx)) (by simp)

theorem readlines_docStr (cs : List Nat)
    (hnonl : ∀ s ∈ headerCores cs ++ bufSpec cs, '\n' ∉ s.data) :
    readlines (docStr cs) = docLines cs := by
  unfold docStr docLines
  exact readlines_joinSep _ hnonl (by simp [bufSpec_ne_nil cs])

/- Newline freedom of every document line. -/

theorem toString_facts : ∀ j, j < 134 →
    (toString j).data.length ≤ 3 ∧ ':' ∉ (toString j).data ∧
      (∀ ch ∈ (toString j).data, tailSafe ch = true) := by decide

theorem toString_ne_133 : ∀ j, j < 133 → (toString j).data ≠ ['1', '3', '3'] := by decide

theorem toString_ne_134 : ∀ j, j < 133 → (toString j).data ≠ ['1', '3', '4'] := by decide

theorem uidBytes_lt (cs : List Nat) (hb : ∀ b ∈ cs, b < 256) :
    ∀ b ∈ uidBytes cs, b < 256 := by
  intro b hbmem
  unfold uidBytes at hbmem
  obtain ⟨i, _, hi⟩ := List.mem_filterMap.mp hbmem
  exact hb b (List.getElem?_mem hi)

theorem group4_bytes (cs : List Nat) (hb : ∀ b ∈ cs, b < 256) (j : Nat) :
    ∀ b ∈ group4 cs j, b < 256 := by
  intro b hmem
  unfold group4 padded at hmem
  have hmem2 := List.drop_subset _ _ (List.take_subset _ _ hmem)
  rcases List.mem_append.mp hmem2 with h | h
  · exact hb b (List.take_subset _ _ h)
  · rw [List.eq_of_mem_replicate h]
    omega

theorem contentLine_noNl (cs : List Nat) (hb : ∀ b ∈ cs, b < 256) (j : Nat)
    (hj : j < 133) : '\n' ∉ (contentLine cs j).data := by
  unfold contentLine
  intro hmem
  rw [String.data_append, String.data_append, String.data_append] at hmem
  rcases List.mem_append.mp hmem with h1 | h1
  · rcases List.mem_append.mp h1 with h2 | h2
    · rcases List.mem_append.mp h2 with h3 | h3
      · exact absurd h3 (by decide)
      · have ht := ((toString_facts j (by omega)).2.2) _ h3
        exact absurd ht (by decide)
    · exact absurd h2 (by decide)
  · have ht := hexJoin_chars _ (group4_bytes cs hb j) _ h1
    exact absurd ht (by decide)

theorem docCores_noNl (cs : List Nat) (hb : ∀ b ∈ cs, b < 256) :
    ∀ s ∈ headerCores cs ++ bufSpec cs, '\n' ∉ s.data := by
  intro s hs
  rcases List.mem_append.mp hs with hh | hbuf
  · unfold headerCores at hh
    simp only [List.mem_cons, List.not_mem_nil, or_false] at hh
    rcases hh with rfl|rfl|rfl|rfl|rfl|rfl|rfl|rfl|rfl|rfl|rfl|rfl|rfl|rfl|rfl|rfl|rfl|rfl
    all_goals first
      | decide
      | (intro hmem
         rw [String.data_append] at hmem
         rcases List.mem_append.mp hmem with h | h
         · exact absurd h (by decide)
         · have ht := get_uid_chars cs hb _ h
           exact absurd ht (by decide))
  · unfold bufSpec at hbuf
    rcases List.mem_append.mp hbuf with hc | hp
    · obtain ⟨j, hj, rfl⟩ := List.mem_map.mp hc
      exact contentLine_noNl cs hb j (List.mem_range.mp hj)
    · simp only [List.mem_cons, List.not_mem_nil, or_false] at hp
      rcases hp with rfl | rfl
      · intro hmem
        rw [String.data_append] at hmem
        rcases List.mem_append.mp hmem with h | h
        · exact absurd h (by decide)
        · unfold pwdHexSpec at h
          have ht := hexJoin_chars _
            (calculate_password_bytes _ (uidBytes_lt cs hb)) _ h
          exact absurd ht (by decide)
      · decide

/- Closed forms for inputs long enough to carry a full UID. -/

theorem uidBytes_long (cs : List Nat) (hlen : 8 ≤ cs.length) :
    uidBytes cs = [cs[0], cs[1], cs[2], cs[4], cs[5], cs[6], cs[7]] := by
  unfold uidBytes uidIdx
  simp only [List.filterMap_cons, List.filterMap_nil]
  rw [List.getElem?_eq_getElem (show 0 < cs.length by omega),
    List.getElem?_eq_getElem (show 1 < cs.length by omega),
    List.getElem?_eq_getElem (show 2 < cs.length by omega),
    List.getElem?_eq_getElem (show 4 < cs.length by omega),
    List.getElem?_eq_getElem (show 5 < cs.length by omega),
    List.getElem?_eq_getElem (show 6 < cs.length by omega),
    List.getElem?_eq_getElem (show 7 < cs.length by omega)]

theorem uidBytes_length_long (cs : List Nat) (hlen : 8 ≤ cs.length) :
    (uidBytes cs).length = 7 := by
  rw [uidBytes_long cs hlen]
  rfl

theorem get_uid_long (cs : List Nat) (hb : ∀ b ∈ cs, b < 256) (hlen : 8 ≤ cs.length) :
    get_uid cs = byteHexU cs[0] ++ spc ++ (byteHexU cs[1] ++ spc ++ (byteHexU cs[2] ++ spc ++
      (byteHexU cs[4] ++ spc ++ (byteHexU cs[5] ++ spc ++
        (byteHexU cs[6] ++ spc ++ byteHexU cs[7]))))) := by
  have hby : ∀ i : Nat, ∀ h : i < cs.length, sliceHex cs i = byteHex cs[i] := by
    intro i h
    unfold sliceHex
    rw [dif_pos h]
  unfold get_uid uidIdx
  simp only [List.map_cons, List.map_nil]
  rw [hby 0 (by omega), hby 1 (by omega), hby 2 (by omega), hby 4 (by omega),
    hby 5 (by omega), hby 6 (by omega), hby 7 (by omega)]
  rw [joinSep_cons, joinSep_cons, joinSep_cons, joinSep_cons, joinSep_cons, joinSep_cons]
  have hsingle : joinSep spc [byteHex cs[7]] = byteHex cs[7] := rfl
  rw [hsingle]
  simp only [upper_append, upper_spc]
  rw [upper_byteHex _ (hb _ (List.getElem_mem (by omega))),
    upper_byteHex _ (hb _ (List.getElem_mem (by omega))),
    upper_byteHex _ (hb _ (List.getElem_mem (by omega))),
    upper_byteHex _ (hb _ (List.getElem_mem (by omega))),
    upper_byteHex _ (hb _ (List.getElem_mem (by omega))),
    upper_byteHex _ (hb _ (List.getElem_mem (by omega))),
    upper_byteHex _ (hb _ (List.getElem_mem (by omega)))]

/- Parsing the UID back out of the written UID header line. -/

theorem strip_round (U : List Char) (d e : Char) (mid : List Char)
    (hshape : U = d :: (mid ++ [e]))
    (hd : d.isWhitespace = false) (he : e.isWhitespace = false) :
    removeSuf nl (pyStrip (String.mk (' ' :: (U ++ ['\n'])))) = String.mk U := by
  have hene : ¬ ('\n' = e) := by
    intro hx
    rw [← hx] at he
    exact absurd he (by decide)
  have hstrip : pyStrip (String.mk (' ' :: (U ++ ['\n']))) = String.mk U := by
    unfold pyStrip
    rw [data_mk]
    rw [List.dropWhile_cons_of_pos (by decide)]
    rw [hshape]
    rw [show ((d :: (mid ++ [e])) ++ ['\n']) = d :: (mid ++ [e] ++ ['\n']) by simp]
    rw [List.dropWhile_cons_of_neg (by simp [hd])]
    rw [show (d :: (mid ++ [e] ++ ['\n'])) = ((d :: mid) ++ [e]) ++ ['\n'] by simp]
    rw [List.reverse_append, List.reverse_append]
    simp only [List.reverse_cons, List.reverse_nil, List.nil_append, List.singleton_append,
      List.cons_append]
    rw [List.dropWhile_cons_of_pos (by decide), List.dropWhile_cons_of_neg (by simp [he])]
    apply String.ext
    rw [data_mk, data_mk]
    simp
  rw [hstrip]
  unfold removeSuf
  have hsuf : nl.data.isSuffixOf (String.mk U).data = false := by
    rw [data_mk, hshape]
    show List.isPrefixOf nl.data.reverse (d :: (mid ++ [e])).reverse = false
    rw [show (d :: (mid ++ [e])) = (d :: mid) ++ [e] by simp]
    rw [List.reverse_append]
    show List.isPrefixOf ['\n'] (e :: (d :: mid).reverse) = false
    simp [List.isPrefixOf, hene]
  rw [hsuf]
  simp

theorem get_uid_data_long (cs : List Nat) (hb : ∀ b ∈ cs, b < 256) (hlen : 8 ≤ cs.length) :
    (get_uid cs).data =
      [hexDigU (cs[0] / 16), hexDigU (cs[0] % 16), ' ',
       hexDigU (cs[1] / 16), hexDigU (cs[1] % 16), ' ',
       hexDigU (cs[2] / 16), hexDigU (cs[2] % 16), ' ',
       hexDigU (cs[4] / 16), hexDigU (cs[4] % 16), ' ',
       hexDigU (cs[5] / 16), hexDigU (cs[5] % 16), ' ',
       hexDigU (cs[6] / 16), hexDigU (cs[6] % 16), ' ',
       hexDigU (cs[7] / 16), hexDigU (cs[7] % 16)] := by
  rw [get_uid_long cs hb hlen]
  have hsp : spc.data = [' '] := rfl
  simp only [String.data_append, byteHexU, data_mk, hsp]
  simp

theorem get_uid_bytes_line (cs : List Nat) (hb : ∀ b ∈ cs, b < 256) (hlen : 8 ≤ cs.length) :
    get_uid_bytes (("UID: " ++ get_uid cs) ++ nl) = some (uidBytes cs) := by
  have hlinedata : (("UID: " ++ get_uid cs) ++ nl).data
      = 'U' :: 'I' :: 'D' :: ':' :: ' ' :: ((get_uid cs).data ++ ['\n']) := by
    rw [String.data_append, String.data_append]
    have h1 : ("UID: " : String).data = ['U', 'I', 'D', ':', ' '] := rfl
    have h2 : nl.data = ['\n'] := rfl
    rw [h1, h2]
    simp
  have hpref : uidTag.data.isPrefixOf (("UID: " ++ get_uid cs) ++ nl).data = true := by
    rw [hlinedata]
    have h3 : uidTag.data = ['U', 'I', 'D', ':'] := rfl
    rw [h3]
    simp [List.isPrefixOf]
  have hrp : removePre uidTag (("UID: " ++ get_uid cs) ++ nl)
      = String.mk (' ' :: ((get_uid cs).data ++ ['\n'])) := by
    unfold removePre
    rw [if_pos hpref]
    apply String.ext
    rw [data_mk, hlinedata]
    rfl
  have hd0 : cs[0] / 16 < 16 := by
    have := hb _ (List.getElem_mem (show 0 < cs.length by omega))
    omega
  have hd7 : cs[7] % 16 < 16 := by omega
  have hshape : (get_uid cs).data = hexDigU (cs[0] / 16) ::
      ([hexDigU (cs[0] % 16), ' ',
        hexDigU (cs[1] / 16), hexDigU (cs[1] % 16), ' ',
        hexDigU (cs[2] / 16), hexDigU (cs[2] % 16), ' ',
        hexDigU (cs[4] / 16), hexDigU (cs[4] % 16), ' ',
        hexDigU (cs[5] / 16), hexDigU (cs[5] % 16), ' ',
        hexDigU (cs[6] / 16), hexDigU (cs[6] % 16), ' ',
        hexDigU (cs[7] / 16)] ++ [hexDigU (cs[7] % 16)]) := by
    rw [get_uid_data_long cs hb hlen]
    rfl
  have hstr : removeSuf nl (pyStrip (removePre uidTag (("UID: " ++ get_uid cs) ++ nl)))
      = get_uid cs := by
    rw [hrp]
    rw [strip_round ((get_uid cs).data) (hexDigU (cs[0] / 16)) (hexDigU (cs[7] % 16)) _
      hshape ((hexDigU_props _ hd0).2.2.2.2) ((hexDigU_props _ hd7).2.2.2.2)]
  unfold get_uid_bytes
  rw [hstr, fromhex_get_uid cs hb]

/- No content page line contains the page 133 or page 134 marker. -/

theorem contentLine_not_contains (cs : List Nat) (hb : ∀ b ∈ cs, b < 256) (j : Nat)
    (hj : j < 133) (e1 e2 e3 : Char)
    (h1 : e1 ≠ ':') (h2 : e2 ≠ ':') (h3 : e3 ≠ ':')
    (hne : (toString j).data ≠ [e1, e2, e3])
    (tag : String) (htag : tag.data = 'P' :: 'a' :: 'g' :: 'e' :: ' ' :: [e1, e2, e3, ':']) :
    strContains (contentLine cs j ++ nl) tag = false := by
  unfold strContains
  rw [decide_eq_false_iff_not]
  intro hinf
  rw [htag] at hinf
  have hdata : (contentLine cs j ++ nl).data
      = 'P' :: 'a' :: 'g' :: 'e' :: ' ' ::
        ((toString j).data ++ ':' :: ' ' ::
          ((joinSep spc ((group4 cs j).map byteHexU)).data ++ ['\n'])) := by
    unfold contentLine
    have hnld : nl.data = ['\n'] := rfl
    simp only [String.data_append, hnld]
    simp
  rw [hdata] at hinf
  have htail : 'P' ∉ ('a' :: 'g' :: 'e' :: ' ' ::
      ((toString j).data ++ ':' :: ' ' ::
        ((joinSep spc ((group4 cs j).map byteHexU)).data ++ ['\n']))) := by
    intro hmem
    simp only [List.mem_cons, List.mem_append, List.mem_singleton, List.not_mem_nil,
      or_false] at hmem
    rcases hmem with h|h|h|h|h|h|h|h|h
    · exact absurd h (by decide)
    · exact absurd h (by decide)
    · exact absurd h (by decide)
    · exact absurd h (by decide)
    · exact absurd ((toString_facts j (by omega)).2.2 _ h) (by decide)
    · exact absurd h (by decide)
    · exact absurd h (by decide)
    · exact absurd (hexJoin_chars _ (group4_bytes cs hb j) _ h) (by decide)
    · exact absurd h (by decide)
  have hpre := head_unique_front 'P' _ _ htail hinf
  simp only [List.cons_prefix_cons, true_and] at hpre
  exact not_prefix_digits e1 e2 e3 _ _ (toString_facts j (by omega)).1 h1 h2 h3 hne hpre

theorem pwdLine_not_contains_134 (cs : List Nat) (hb : ∀ b ∈ cs, b < 256) :
    strContains (("Page 133: " ++ pwdHexSpec cs) ++ nl) tag134 = false := by
  unfold strContains
  rw [decide_eq_false_iff_not]
  intro hinf
  have htagd : tag134.data = 'P' :: ['a', 'g', 'e', ' ', '1', '3', '4', ':'] := rfl
  rw [htagd] at hinf
  have hdata : (("Page 133: " ++ pwdHexSpec cs) ++ nl).data
      = 'P' :: ('a' :: 'g' :: 'e' :: ' ' :: '1' :: '3' :: '3' :: ':' :: ' ' ::
        ((pwdHexSpec cs).data ++ ['\n'])) := by
    have h10 : ("Page 133: " : String).data
        = ['P', 'a', 'g', 'e', ' ', '1', '3', '3', ':', ' '] := rfl
    have hnld : nl.data = ['\n'] := rfl
    simp only [String.data_append, hnld, h10]
    simp
  rw [hdata] at hinf
  have hjoin : 'P' ∉ ((pwdHexSpec cs).data ++ ['\n']) := by
    intro h
    rcases List.mem_append.mp h with h | h
    · unfold pwdHexSpec at h
      exact absurd (hexJoin_chars _ (calculate_password_bytes _ (uidBytes_lt cs hb)) _ h)
        (by decide)
    · simp only [List.mem_singleton] at h
      exact absurd h (by decide)
  have htail : 'P' ∉ ('a' :: 'g' :: 'e' :: ' ' :: '1' :: '3' :: '3' :: ':' :: ' ' ::
      ((pwdHexSpec cs).data ++ ['\n'])) := by
    apply List.not_mem_cons_of_ne_of_not_mem (by decide)
    apply List.not_mem_cons_of_ne_of_not_mem (by decide)
    apply List.not_mem_cons_of_ne_of_not_mem (by decide)
    apply List.not_mem_cons_of_ne_of_not_mem (by decide)
    apply List.not_mem_cons_of_ne_of_not_mem (by decide)
    apply List.not_mem_cons_of_ne_of_not_mem (by decide)
    apply List.not_mem_cons_of_ne_of_not_mem (by decide)
    apply List.not_mem_cons_of_ne_of_not_mem (by decide)
    apply List.not_mem_cons_of_ne_of_not_mem (by decide)
    exact hjoin
  have hpre := head_unique_front 'P' _ _ htail hinf
  simp only [List.cons_prefix_cons, true_and] at hpre
  exact absurd hpre.1 (by decide)

theorem uidLine_no_P (cs : List Nat) (hb : ∀ b ∈ cs, b < 256) :
    'P' ∉ ((("UID: " ++ get_uid cs) ++ nl)).data := by
  intro hmem
  rw [String.data_append, String.data_append] at hmem
  rcases List.mem_append.mp hmem with h | h
  · rcases List.mem_append.mp h with h2 | h2
    · exact absurd h2 (by decide)
    · exact absurd (get_uid_chars cs hb _ h2) (by decide)
  · exact absurd h (by decide)

theorem findIdx_at (p : String → Bool) (A : List String) (x : String) (B : List String)
    (hA : ∀ a ∈ A, p a = false) (hx : p x = true) :
    (A ++ x :: B).findIdx p = A.length := by
  induction A with
  | nil =>
    rw [List.nil_append, List.findIdx_cons, hx, cond_true]
    rfl
  | cons a t ih =>
    rw [List.cons_append, List.findIdx_cons, hA a (List.mem_cons_self a t), cond_false,
      ih (fun y hy => hA y (List.mem_cons_of_mem a hy))]
    rfl

theorem getElem_at_mid (A : List String) (x : String) (B : List String) :
    (A ++ x :: B)[A.length]? = some x := by
  rw [List.getElem?_append_right (Nat.le_refl A.length)]
  simp

theorem set_self {A : Type} (l : List A) : ∀ (i : Nat) (x : A),
    l[i]? = some x → l.set i x = l := by
  induction l with
  | nil =>
    intro i x h
    cases h
  | cons a t ih =>
    intro i x h
    cases i with
    | zero =>
      simp only [List.getElem?_cons_zero, Option.some.injEq] at h
      rw [← h]
      rfl
    | succ i =>
      simp only [List.getElem?_cons_succ] at h
      rw [List.set_cons_succ, ih i x h]

/- Locating lines in the assembled document. -/

theorem gsc_cons_neg (a : String) (lines : List String) (sub : String)
    (ha : strContains a sub = false) :
    get_string_containing (a :: lines) sub = get_string_containing lines sub := by
  unfold get_string_containing
  rw [List.filter_cons, if_neg (by simp [ha])]

theorem gsc_cons_pos (a : String) (lines : List String) (sub : String)
    (ha : strContains a sub = true) :
    get_string_containing (a :: lines) sub = some a := by
  unfold get_string_containing
  rw [List.filter_cons, if_pos (by simp [ha])]
  rfl

theorem uid_line_contains (cs : List Nat) :
    strContains (("UID: " ++ get_uid cs) ++ nl) uidTag = true := by
  apply contains_of_isPre
  refine ⟨' ' :: ((get_uid cs).data ++ ['\n']), ?_⟩
  rw [String.data_append, String.data_append]
  rfl

theorem pwd_line_contains (cs : List Nat) :
    strContains (("Page 133: " ++ pwdHexSpec cs) ++ nl) tag133 = true := by
  apply contains_of_isPre
  refine ⟨' ' :: ((pwdHexSpec cs).data ++ ['\n']), ?_⟩
  rw [String.data_append, String.data_append]
  rfl

theorem get_uid_string_doc (cs : List Nat) :
    get_string_containing (docLines cs) uidTag = some (("UID: " ++ get_uid cs) ++ nl) := by
  unfold docLines headerCores
  simp only [List.cons_append, List.map_cons]
  rw [gsc_cons_neg _ _ _ (by decide), gsc_cons_neg _ _ _ (by decide),
    gsc_cons_neg _ _ _ (by decide), gsc_cons_neg _ _ _ (by decide),
    gsc_cons_neg _ _ _ (by decide), gsc_cons_pos _ _ _ (uid_line_contains cs)]

/-- The document lines before the password page. -/
def preLines (cs : List Nat) : List String :=
  (headerCores cs ++ (List.range 133).map (contentLine cs)).map (fun s => s ++ nl)

theorem docLines_decomp (cs : List Nat) :
    docLines cs = preLines cs ++ (("Page 133: " ++ pwdHexSpec cs) ++ nl) ::
      [("Page 134: 80 80 00 00" : String) ++ nl] := by
  unfold docLines preLines bufSpec
  simp [List.map_append]

theorem preLines_length (cs : List Nat) : (preLines cs).length = 151 := by
  unfold preLines headerCores
  simp

theorem preLines_not_133 (cs : List Nat) (hb : ∀ b ∈ cs, b < 256) :
    ∀ a ∈ preLines cs, strContains a tag133 = false := by
  intro a ha
  obtain ⟨s, hsmem, rfl⟩ := List.mem_map.mp ha
  rcases List.mem_append.mp hsmem with hh | hc
  · unfold headerCores at hh
    simp only [List.mem_cons, List.not_mem_nil, or_false] at hh
    rcases hh with rfl|rfl|rfl|rfl|rfl|rfl|rfl|rfl|rfl|rfl|rfl|rfl|rfl|rfl|rfl|rfl|rfl|rfl
    all_goals first
      | decide
      | exact not_contains_of_missing _ _ 'P' (by decide) (uidLine_no_P cs hb)
  · obtain ⟨j, hj, rfl⟩ := List.mem_map.mp hc
    exact contentLine_not_contains cs hb j (List.mem_range.mp hj) '1' '3' '3'
      (by decide) (by decide) (by decide) (toString_ne_133 j (List.mem_range.mp hj))
      tag133 rfl

theorem preLines_not_134 (cs : List Nat) (hb : ∀ b ∈ cs, b < 256) :
    ∀ a ∈ preLines cs, strContains a tag134 = false := by
  intro a ha
  obtain ⟨s, hsmem, rfl⟩ := List.mem_map.mp ha
  rcases List.mem_append.mp hsmem with hh | hc
  · unfold headerCores at hh
    simp only [List.mem_cons, List.not_mem_nil, or_false] at hh
    rcases hh with rfl|rfl|rfl|rfl|rfl|rfl|rfl|rfl|rfl|rfl|rfl|rfl|rfl|rfl|rfl|rfl|rfl|rfl
    all_goals first
      | decide
      | exact not_contains_of_missing _ _ 'P' (by decide) (uidLine_no_P cs hb)
  · obtain ⟨j, hj, rfl⟩ := List.mem_map.mp hc
    exact contentLine_not_contains cs hb j (List.mem_range.mp hj) '1' '3' '4'
      (by decide) (by decide) (by decide) (toString_ne_134 j (List.mem_range.mp hj))
      tag134 rfl

/- The full in memory patch applied to a freshly assembled document. -/

theorem calculate_password_explicit (uid : List Nat) (h : uid.length = 7) :
    calculate_password uid = [uid[1] ^^^ uid[3] ^^^ 0xAA, uid[2] ^^^ uid[4] ^^^ 0x55,
      uid[3] ^^^ uid[5] ^^^ 0xAA, uid[4] ^^^ uid[6] ^^^ 0x55] := by
  unfold calculate_password
  rw [dif_pos h]

theorem format_eq_pwdLine (p0 p1 p2 p3 : Nat) :
    format_new_page tag133 [p0, p1, p2, p3]
      = ("Page 133: " ++ joinSep spc (List.map byteHexU [p0, p1, p2, p3])) ++ nl := by
  apply String.ext
  unfold format_new_page
  have hA : (tag133 : String).data = ['P', 'a', 'g', 'e', ' ', '1', '3', '3', ':'] := rfl
  have hB : ("Page 133: " : String).data = ['P', 'a', 'g', 'e', ' ', '1', '3', '3', ':', ' '] := rfl
  have hsp : spc.data = [' '] := rfl
  have hemp : emptyStr.data = [] := rfl
  simp [joinSep, String.data_append, hA, hB, hsp, hemp]

theorem save_with_pwd_doc (cs : List Nat) (hb : ∀ b ∈ cs, b < 256) (hlen : 8 ≤ cs.length) :
    save_with_pwd (docLines cs) = some (docLines cs) := by
  have h7 : (uidBytes cs).length = 7 := uidBytes_length_long cs hlen
  have hfmt : format_new_page tag133 (calculate_password (uidBytes cs))
      = ("Page 133: " ++ pwdHexSpec cs) ++ nl := by
    unfold pwdHexSpec
    rw [calculate_password_explicit _ h7, format_eq_pwdLine]
  have hmem133 : ∃ l ∈ docLines cs, strContains l tag133 = true := by
    refine ⟨("Page 133: " ++ pwdHexSpec cs) ++ nl, ?_, pwd_line_contains cs⟩
    rw [docLines_decomp]
    simp
  have hfind133 : (docLines cs).findIdx (fun s => strContains s tag133) = 151 := by
    rw [docLines_decomp,
      findIdx_at _ _ _ _ (preLines_not_133 cs hb) (pwd_line_contains cs)]
    exact preLines_length cs
  have hget133 : (docLines cs)[(151 : Nat)]?
      = some (("Page 133: " ++ pwdHexSpec cs) ++ nl) := by
    rw [docLines_decomp]
    have hg := getElem_at_mid (preLines cs) (("Page 133: " ++ pwdHexSpec cs) ++ nl)
      [("Page 134: 80 80 00 00" : String) ++ nl]
    rw [preLines_length] at hg
    exact hg
  have hrep1 : save_pwd_to_page (docLines cs) (calculate_password (uidBytes cs))
      = some (docLines cs) := by
    unfold save_pwd_to_page
    rw [replace_page_data_eq _ _ _ hmem133, hfind133, hfmt, set_self _ _ _ hget133]
  have hmem134 : ∃ l ∈ docLines cs, strContains l tag134 = true := by
    refine ⟨("Page 134: 80 80 00 00" : String) ++ nl, ?_, by decide⟩
    rw [docLines_decomp]
    simp
  have hA134 : ∀ a ∈ preLines cs ++ [("Page 133: " ++ pwdHexSpec cs) ++ nl],
      strContains a tag134 = false := by
    intro a ha
    rcases List.mem_append.mp ha with h | h
    · exact preLines_not_134 cs hb a h
    · simp only [List.mem_singleton] at h
      rw [h]
      exact pwdLine_not_contains_134 cs hb
  have hdecomp2 : docLines cs = (preLines cs ++ [("Page 133: " ++ pwdHexSpec cs) ++ nl])
      ++ (("Page 134: 80 80 00 00" : String) ++ nl) :: [] := by
    rw [docLines_decomp]
    simp
  have hfind134 : (docLines cs).findIdx (fun s => strContains s tag134) = 152 := by
    rw [hdecomp2, findIdx_at _ _ _ _ hA134 (by decide)]
    simp [preLines_length]
  have hget134 : (docLines cs)[(152 : Nat)]?
      = some (("Page 134: 80 80 00 00" : String) ++ nl) := by
    rw [hdecomp2]
    have hg := getElem_at_mid (preLines cs ++ [("Page 133: " ++ pwdHexSpec cs) ++ nl])
      (("Page 134: 80 80 00 00" : String) ++ nl) []
    rw [List.length_append, preLines_length] at hg
    exact hg
  have hfmt2 : format_new_page tag134 [([0x80, 0x80] : List Nat).getD 0 0,
      ([0x80, 0x80] : List Nat).getD 1 0, 0, 0]
      = ("Page 134: 80 80 00 00" : String) ++ nl := by
    apply String.ext
    decide
  have hrep2 : save_pack_to_page (docLines cs) [0x80, 0x80] = some (docLines cs) := by
    unfold save_pack_to_page
    rw [replace_page_data_eq _ _ _ hmem134, hfind134, hfmt2, set_self _ _ _ hget134]
  have hrw : save_with_pwd (docLines cs)
      = match save_pwd_to_page (docLines cs) (calculate_password (uidBytes cs)) with
        | none => none
        | some lines1 => save_pack_to_page lines1 [0x80, 0x80] := by
    unfold save_with_pwd
    simp only [get_uid_string_doc cs, get_uid_bytes_line cs hb hlen]
  rw [hrw]
  simp only [hrep1, hrep2]

/- The byte loop never looks past the first 532 bytes. -/

theorem convLoop_take (l : List Nat) : ∀ (pc : Nat) (page buffer : List String),
    page.length ≤ 3 →
    convLoop l pc page buffer
      = convLoop (l.take ((133 - pc) * 4 - page.length)) pc page buffer := by
  induction l with
  | nil =>
    intro pc page buffer hp
    rw [List.take_nil]
  | cons b rest ih =>
    intro pc page buffer hp
    by_cases hpc : 132 < pc
    · have hz : (133 - pc) * 4 - page.length = 0 := by omega
      rw [hz, List.take_zero]
      simp [convLoop, hpc]
    · have hB : 1 ≤ (133 - pc) * 4 - page.length := by omega
      rw [show ((133 - pc) * 4 - page.length)
        = ((133 - pc) * 4 - page.length - 1) + 1 by omega]
      rw [List.take_succ_cons]
      by_cases h4 : (page ++ [byteHex b]).length = 4
      · simp only [convLoop, if_neg hpc, if_pos h4]
        have hlen3 : page.length = 3 := by
          simp only [List.length_append, List.length_cons, List.length_nil] at h4
          omega
        rw [show ((133 - pc) * 4 - page.length - 1)
          = ((133 - (pc + 1)) * 4 - ([] : List String).length) by
            simp only [List.length_nil]
            omega]
        exact ih (pc + 1) [] _ (by simp)
      · simp only [convLoop, if_neg hpc, if_neg h4]
        have hlen3 : (page ++ [byteHex b]).length ≤ 3 := by
          simp only [List.length_append, List.length_cons, List.length_nil] at h4 ⊢
          omega
        rw [show ((133 - pc) * 4 - page.length - 1)
          = ((133 - pc) * 4 - (page ++ [byteHex b]).length) by
            simp only [List.length_append, List.length_cons, List.length_nil]
            omega]
        exact ih pc (page ++ [byteHex b]) buffer hlen3

/- findIdx is stable under rewriting a different line with a non matching one. -/

theorem findIdx_set_ne (p : String → Bool) (lines : List String) (i : Nat) (x : String)
    (hpx : p x = false) (hlt : lines.findIdx p < lines.length)
    (hne : lines.findIdx p ≠ i) :
    (lines.set i x).findIdx p = lines.findIdx p := by
  have hjlt : lines.findIdx p < (lines.set i x).length := by
    rw [List.length_set]
    exact hlt
  apply (List.findIdx_eq hjlt).mpr
  constructor
  · rw [List.getElem_set_ne (fun hx => hne hx.symm)]
    exact List.findIdx_getElem
  · intro k hk
    by_cases hki : i = k
    · subst hki
      rw [List.getElem_set_self]
      exact hpx
    · rw [List.getElem_set_ne hki]
      exact List.not_of_lt_findIdx hk

/- Claim theorems. -/

/-- C1: for every UID of exactly 7 bytes, calculate_password returns exactly
4 bytes, namely uid[1] XOR uid[3] XOR 0xAA, uid[2] XOR uid[4] XOR 0x55,
uid[3] XOR uid[5] XOR 0xAA and uid[4] XOR uid[6] XOR 0x55. -/
theorem c1_password_formula (uid : List Nat) (h : uid.length = 7) :
    (calculate_password uid).length = 4 ∧
    calculate_password uid = [uid[1] ^^^ uid[3] ^^^ 0xAA, uid[2] ^^^ uid[4] ^^^ 0x55,
      uid[3] ^^^ uid[5] ^^^ 0xAA, uid[4] ^^^ uid[6] ^^^ 0x55] := by
  refine ⟨?_, calculate_password_explicit uid h⟩
  rw [calculate_password_explicit uid h]
  rfl

/-- Witness for C1 at the UID DE AD BE EF 01 02 03. -/
theorem c1_password_formula_witness :
    ([0xDE, 0xAD, 0xBE, 0xEF, 0x01, 0x02, 0x03] : List Nat).length = 7 ∧
    ((calculate_password [0xDE, 0xAD, 0xBE, 0xEF, 0x01, 0x02, 0x03]).length = 4 ∧
      calculate_password [0xDE, 0xAD, 0xBE, 0xEF, 0x01, 0x02, 0x03]
        = [0xAD ^^^ 0xEF ^^^ 0xAA, 0xBE ^^^ 0x01 ^^^ 0x55,
           0xEF ^^^ 0x02 ^^^ 0xAA, 0x01 ^^^ 0x03 ^^^ 0x55]) :=
  ⟨by decide, c1_password_formula [0xDE, 0xAD, 0xBE, 0xEF, 0x01, 0x02, 0x03] (by decide)⟩

/-- C2 counterexample: on a 6 byte UID calculate_password does not fail,
it returns normally with the empty list as its result. -/
theorem c2_counterexample :
    calculate_password [0, 0, 0, 0, 0, 0] = [] ∧
    (calculate_password [0, 0, 0, 0, 0, 0]).length ≠ 4 := by decide

/-- C2 amended: for every UID whose length is not 7, calculate_password
returns the empty list (after logging); no failure is surfaced. -/
theorem c2_amended (uid : List Nat) (h : uid.length ≠ 7) :
    calculate_password uid = [] := by
  unfold calculate_password
  rw [dif_neg h]

/-- Witness for the amended C2 at a 6 byte UID. -/
theorem c2_amended_witness :
    ([0, 0, 0, 0, 0, 0] : List Nat).length ≠ 7 ∧
    calculate_password [0, 0, 0, 0, 0, 0] = [] :=
  ⟨by decide, c2_amended [0, 0, 0, 0, 0, 0] (by decide)⟩

theorem xor_right_cancel2 (a b y z : Nat) (h : a ^^^ y ^^^ z = b ^^^ y ^^^ z) : a = b := by
  have h1 : a ^^^ y = b ^^^ y := by
    rw [← Nat.xor_cancel_right z (a ^^^ y), ← Nat.xor_cancel_right z (b ^^^ y), h]
  rw [← Nat.xor_cancel_right y a, ← Nat.xor_cancel_right y b, h1]

theorem xor_mid_cancel2 (y a b z : Nat) (h : y ^^^ a ^^^ z = y ^^^ b ^^^ z) : a = b := by
  have h1 : y ^^^ a = y ^^^ b := by
    rw [← Nat.xor_cancel_right z (y ^^^ a), ← Nat.xor_cancel_right z (y ^^^ b), h]
  rw [← Nat.xor_cancel_left y a, h1, Nat.xor_cancel_left]

/-- C4 counterexample: changing only byte 0 of a 7 byte UID leaves the
derived password unchanged, because byte 0 never enters the formula. -/
theorem c4_counterexample :
    (([0, 0, 0, 0, 0, 0, 0] : List Nat).set 0 1 = [1, 0, 0, 0, 0, 0, 0]) ∧
    ((1 : Nat) ≠ 0) ∧
    calculate_password (([0, 0, 0, 0, 0, 0, 0] : List Nat).set 0 1)
      = calculate_password [0, 0, 0, 0, 0, 0, 0] := by decide

/-- C4 amended: changing a single byte at an index from 1 to 6 of a 7 byte
UID to a different value always changes the derived password; index 0 is
excluded because the formula never reads it. -/
theorem c4_amended (u : List Nat) (h7 : u.length = 7) (k : Nat)
    (hk1 : 1 ≤ k) (hk6 : k ≤ 6) (x : Nat) (hx : x ≠ u.get ⟨k, by omega⟩) :
    calculate_password (u.set k x) ≠ calculate_password u := by
  obtain ⟨a, b, c2, d, e, f, g, rfl⟩ :
      ∃ a b c2 d e f g, u = [a, b, c2, d, e, f, g] := by
    rcases u with _|⟨a, _|⟨b, _|⟨c2, _|⟨d, _|⟨e, _|⟨f, _|⟨g, rest⟩⟩⟩⟩⟩⟩⟩ <;>
      simp only [List.length_cons, List.length_nil] at h7 <;> try omega
    have hrest : rest = [] := List.length_eq_zero.mp (by omega)
    exact ⟨a, b, c2, d, e, f, g, by rw [hrest]⟩
  interval_cases k
  · intro heq
    rw [show ([a, b, c2, d, e, f, g].set 1 x) = [a, x, c2, d, e, f, g] from rfl] at heq
    rw [calculate_password_explicit _ (by rfl), calculate_password_explicit _ (by rfl)] at heq
    simp only [List.cons.injEq, and_true] at heq
    exact hx (xor_right_cancel2 _ _ _ _ heq.1)
  · intro heq
    rw [show ([a, b, c2, d, e, f, g].set 2 x) = [a, b, x, d, e, f, g] from rfl] at heq
    rw [calculate_password_explicit _ (by rfl), calculate_password_explicit _ (by rfl)] at heq
    simp only [List.cons.injEq, and_true] at heq
    exact hx (xor_right_cancel2 _ _ _ _ heq.2.1)
  · intro heq
    rw [show ([a, b, c2, d, e, f, g].set 3 x) = [a, b, c2, x, e, f, g] from rfl] at heq
    rw [calculate_password_explicit _ (by rfl), calculate_password_explicit _ (by rfl)] at heq
    simp only [List.cons.injEq, and_true] at heq
    exact hx (xor_mid_cancel2 _ _ _ _ heq.1)
  · intro heq
    rw [show ([a, b, c2, d, e, f, g].set 4 x) = [a, b, c2, d, x, f, g] from rfl] at heq
    rw [calculate_password_explicit _ (by rfl), calculate_password_explicit _ (by rfl)] at heq
    simp only [List.cons.injEq, and_true] at heq
    exact hx (xor_mid_cancel2 _ _ _ _ heq.2.1)
  · intro heq
    rw [show ([a, b, c2, d, e, f, g].set 5 x) = [a, b, c2, d, e, x, g] from rfl] at heq
    rw [calculate_password_explicit _ (by rfl), calculate_password_explicit _ (by rfl)] at heq
    simp only [List.cons.injEq, and_true] at heq
    exact hx (xor_mid_cancel2 _ _ _ _ heq.2.2.1)
  · intro heq
    rw [show ([a, b, c2, d, e, f, g].set 6 x) = [a, b, c2, d, e, f, x] from rfl] at heq
    rw [calculate_password_explicit _ (by rfl), calculate_password_explicit _ (by rfl)] at heq
    simp only [List.cons.injEq, and_true] at heq
    exact hx (xor_mid_cancel2 _ _ _ _ heq.2.2.2)

/-- Witness for the amended C4: flipping byte 1 of the zero UID to 5. -/
theorem c4_amended_witness :
    ([0, 0, 0, 0, 0, 0, 0] : List Nat).length = 7 ∧
    calculate_password (([0, 0, 0, 0, 0, 0, 0] : List Nat).set 1 5)
      ≠ calculate_password [0, 0, 0, 0, 0, 0, 0] :=
  ⟨by decide, c4_amended [0, 0, 0, 0, 0, 0, 0] (by decide) 1 (by decide) (by decide) 5
    (by decide)⟩

/-- C3: for every image of at least 8 bytes, convert produces exactly 135
page lines with a page count of 135: 133 content lines over the input
truncated at 532 bytes and zero padded (bufSpec and contentLine), then the
password page 133 and the fixed page 134. -/
theorem c3_page_layout (cs : List Nat) (hb : ∀ b ∈ cs, b < 256)
    (hlen : 8 ≤ cs.length) :
    convertPages cs = some (bufSpec cs, 135) ∧
    (bufSpec cs).length = 135 ∧
    (∀ i, i < 133 → (bufSpec cs)[i]? = some (contentLine cs i)) ∧
    (bufSpec cs).drop 133 = ["Page 133: " ++ pwdHexSpec cs, "Page 134: 80 80 00 00"] ∧
    convert cs = some (joinSep nl (bufSpec cs), 135) := by
  have h := convertPages_eq cs hb
  have hlenmap : ((List.range 133).map (contentLine cs)).length = 133 := by simp
  refine ⟨h, ?_, ?_, ?_, ?_⟩
  · unfold bufSpec
    simp
  · intro i hi
    unfold bufSpec
    rw [List.getElem?_append]
    simp [hi]
  · unfold bufSpec
    have hd := List.drop_left ((List.range 133).map (contentLine cs))
      ["Page 133: " ++ pwdHexSpec cs, "Page 134: 80 80 00 00"]
    rw [hlenmap] at hd
    exact hd
  · unfold convert
    rw [h]
    rfl
/-- Witness for C3 at an 8 byte image. -/
theorem c3_page_layout_witness :
    (∀ b ∈ ([1, 2, 3, 4, 5, 6, 7, 8] : List Nat), b < 256) ∧
    (8 ≤ ([1, 2, 3, 4, 5, 6, 7, 8] : List Nat).length) ∧
    (convertPages [1, 2, 3, 4, 5, 6, 7, 8] = some (bufSpec [1, 2, 3, 4, 5, 6, 7, 8], 135) ∧
      (bufSpec [1, 2, 3, 4, 5, 6, 7, 8]).length = 135) := by
  have h := c3_page_layout [1, 2, 3, 4, 5, 6, 7, 8] (by decide) (by decide)
  exact ⟨by decide, by decide, h.1, h.2.1⟩

/-- C6 counterexample: on the 1 byte image 41, UID extraction silently
produces the text 41 followed by six spaces, parsing it back gives a one
byte UID rather than an error, and get_pwd returns the empty password. -/
theorem c6_counterexample :
    get_uid [0x41] = "41      " ∧
    fromhex (get_uid [0x41]) = some [0x41] ∧
    get_pwd [0x41] = some [] := by decide

/-- C6 amended: for every image shorter than 8 bytes, UID extraction does
not fail: the out of range positions contribute nothing, the collected UID
has fewer than 7 bytes, and get_pwd succeeds with the empty password. -/
theorem c6_amended (cs : List Nat) (hb : ∀ b ∈ cs, b < 256)
    (hlen : cs.length < 8) :
    fromhex (get_uid cs) = some (uidBytes cs) ∧
    (uidBytes cs).length < 7 ∧
    get_pwd cs = some [] := by
  have hfrom := fromhex_get_uid cs hb
  have hnone : cs[(7 : Nat)]? = none := by
    rw [List.getElem?_eq_none]
    omega
  have hshort : (uidBytes cs).length < 7 := by
    unfold uidBytes uidIdx
    rw [show ([0, 1, 2, 4, 5, 6, 7] : List Nat) = [0, 1, 2, 4, 5, 6] ++ [7] from rfl,
      List.filterMap_append]
    have hlast : List.filterMap (fun i => cs[i]?) [7] = [] := by
      simp [List.filterMap, hnone]
    rw [hlast, List.append_nil]
    have hle := List.length_filterMap_le (fun i => cs[i]?) [0, 1, 2, 4, 5, 6]
    simp only [List.length_cons, List.length_nil] at hle
    omega
  refine ⟨hfrom, hshort, ?_⟩
  rw [get_pwd_eq cs hb, c2_amended _ (by omega)]

/-- Witness for the amended C6 at the 1 byte image 41. -/
theorem c6_amended_witness :
    (∀ b ∈ ([0x41] : List Nat), b < 256) ∧ (([0x41] : List Nat).length < 8) ∧
    (fromhex (get_uid [0x41]) = some (uidBytes [0x41]) ∧
      (uidBytes [0x41]).length < 7 ∧ get_pwd [0x41] = some []) :=
  ⟨by decide, by decide, c6_amended [0x41] (by decide) (by decide)⟩

/-- The header lines as the claim lists them: the layout of the external
interface section of the specification, with no comment lines. -/
def specHeaderCores (cs : List Nat) : List String :=
  ["Filetype: Flipper NFC device",
   "Version: 2",
   "Device type: NTAG215",
   "UID: " ++ get_uid cs,
   "ATQA: 44 00",
   "SAK: 00",
   "Signature: 00 00 00 00 00 00 00 00 00 00 00 00 00 00 00 00 00 00 00 00 00 00 00 00 00 00 00 00 00 00 00 00",
   "Mifare version: 00 04 04 02 01 00 11 03",
   "Counter 0: 0",
   "Tearing 0: 00",
   "Counter 1: 0",
   "Tearing 1: 00",
   "Counter 2: 0",
   "Tearing 2: 00",
   "Pages total: " ++ toString (135 : Nat)]

/-- The document shape the claim asserts: exactly the spec headers followed
by the 135 page lines, nothing else in between. -/
def specDocLines (cs : List Nat) : List String :=
  (specHeaderCores cs ++ bufSpec cs).map (fun s => s ++ nl)

/-- C7 counterexample: at the all zero 8 byte image the document does not
follow the claimed layout: its third line is a comment line, not one of
the header lines the claim lists. -/
theorem c7_counterexample :
    assemble_code (List.replicate 8 0) = some (docStr (List.replicate 8 0)) ∧
    readlines (docStr (List.replicate 8 0)) ≠ specDocLines (List.replicate 8 0) ∧
    (readlines (docStr (List.replicate 8 0)))[(2 : Nat)]?
      = some ("# Nfc device type can be UID, Mifare Ultralight, Bank card" ++ nl) := by
  have hb : ∀ b ∈ List.replicate 8 0, b < 256 := by decide
  have ha := assemble_code_eq (List.replicate 8 0) hb
  have hr := readlines_docStr (List.replicate 8 0) (docCores_noNl _ hb)
  refine ⟨ha, ?_, ?_⟩
  · rw [hr]
    intro heq
    have h2 := congrArg (fun l => l[(2 : Nat)]?) heq
    simp only [docLines, specDocLines, headerCores, specHeaderCores, List.cons_append,
      List.map_cons, List.getElem?_cons_succ, List.getElem?_cons_zero,
      Option.some.injEq] at h2
    exact absurd h2 (by decide)
  · rw [hr]
    rfl

/-- C7 amended: for every byte image, the document consists of the claimed
header lines in order, but with three comment lines inserted (after the
Version line, after the Device type line and after the SAK line), followed
by the 135 page lines: the full header list is headerCores, which contains
the three comment lines the claim omits. -/
theorem c7_amended (cs : List Nat) (hb : ∀ b ∈ cs, b < 256) :
    assemble_code cs = some (docStr cs) ∧
    readlines (docStr cs)
      = (headerCores cs).map (fun s => s ++ nl) ++ (bufSpec cs).map (fun s => s ++ nl) ∧
    (headerCores cs).length = 18 ∧ (bufSpec cs).length = 135 := by
  refine ⟨assemble_code_eq cs hb, ?_, by simp [headerCores], by simp [bufSpec]⟩
  rw [readlines_docStr cs (docCores_noNl cs hb)]
  unfold docLines
  rw [List.map_append]

/-- Witness for the amended C7 at the all zero 8 byte image. -/
theorem c7_amended_witness :
    (∀ b ∈ List.replicate 8 0, b < 256) ∧
    (assemble_code (List.replicate 8 0) = some (docStr (List.replicate 8 0)) ∧
      readlines (docStr (List.replicate 8 0))
        = (headerCores (List.replicate 8 0)).map (fun s => s ++ nl)
          ++ (bufSpec (List.replicate 8 0)).map (fun s => s ++ nl) ∧
      (headerCores (List.replicate 8 0)).length = 18 ∧
      (bufSpec (List.replicate 8 0)).length = 135) :=
  ⟨by decide, c7_amended (List.replicate 8 0) (by decide)⟩

/-- C9: frame condition of the line patcher: whenever a line contains
"Page 133:" and a line contains "Page 134:", replace_page_data rewrites
exactly the first such line, at its original index, with the freshly
formatted line, and every other position of the list is unchanged. -/
theorem c9_frame (lines : List String) (d133 d134 : List Nat)
    (h133 : ∃ l ∈ lines, strContains l tag133 = true)
    (h134 : ∃ l ∈ lines, strContains l tag134 = true) :
    (replace_page_data lines tag133 d133
        = some (lines.set (lines.findIdx (fun s => strContains s tag133))
            (format_new_page tag133 d133))
      ∧ lines.findIdx (fun s => strContains s tag133) < lines.length
      ∧ (∀ j, j ≠ lines.findIdx (fun s => strContains s tag133) →
          (lines.set (lines.findIdx (fun s => strContains s tag133))
            (format_new_page tag133 d133))[j]? = lines[j]?))
    ∧ (replace_page_data lines tag134 d134
        = some (lines.set (lines.findIdx (fun s => strContains s tag134))
            (format_new_page tag134 d134))
      ∧ lines.findIdx (fun s => strContains s tag134) < lines.length
      ∧ (∀ j, j ≠ lines.findIdx (fun s => strContains s tag134) →
          (lines.set (lines.findIdx (fun s => strContains s tag134))
            (format_new_page tag134 d134))[j]? = lines[j]?)) := by
  refine ⟨⟨replace_page_data_eq lines tag133 d133 h133,
      List.findIdx_lt_length_of_exists h133, ?_⟩,
    replace_page_data_eq lines tag134 d134 h134,
      List.findIdx_lt_length_of_exists h134, ?_⟩ <;>
    (intro j hj
     exact List.getElem?_set_ne (fun hx => hj hx.symm))

/-- Witness for C9 on a small concrete document. -/
theorem c9_frame_witness :
    (∃ l ∈ ["x\n", "Page 133: 00 00 00 00\n", "Page 134: 00 00 00 00\n"],
      strContains l tag133 = true) ∧
    (∃ l ∈ ["x\n", "Page 133: 00 00 00 00\n", "Page 134: 00 00 00 00\n"],
      strContains l tag134 = true) ∧
    replace_page_data ["x\n", "Page 133: 00 00 00 00\n", "Page 134: 00 00 00 00\n"]
        tag133 [1, 2, 3, 4]
      = some (["x\n", "Page 133: 00 00 00 00\n", "Page 134: 00 00 00 00\n"].set
          (["x\n", "Page 133: 00 00 00 00\n", "Page 134: 00 00 00 00\n"].findIdx
            (fun s => strContains s tag133)) (format_new_page tag133 [1, 2, 3, 4])) := by
  have h := c9_frame ["x\n", "Page 133: 00 00 00 00\n", "Page 134: 00 00 00 00\n"]
    [1, 2, 3, 4] [0x80, 0x80, 0, 0] (by decide) (by decide)
  exact ⟨by decide, by decide, h.1.1⟩

/-- C10: images that agree on their first 532 bytes convert identically:
the byte loop never consumes more than 532 bytes and the UID comes from
the first 8, so the page text, the page count, the password page and the
whole assembled document coincide. -/
theorem c10_truncation (cs1 cs2 : List Nat) (h1 : 532 ≤ cs1.length)
    (h2 : 532 ≤ cs2.length) (heq : cs1.take 532 = cs2.take 532) :
    convert cs1 = convert cs2 ∧ convertPages cs1 = convertPages cs2 ∧
    get_pwd cs1 = get_pwd cs2 ∧ assemble_code cs1 = assemble_code cs2 := by
  have e1 := convLoop_take cs1 0 [] [] (by simp)
  have e2 := convLoop_take cs2 0 [] [] (by simp)
  rw [show ((133 - 0) * 4 - ([] : List String).length) = 532 from rfl] at e1 e2
  have hloop : convLoop cs1 0 [] [] = convLoop cs2 0 [] [] := by
    rw [e1, e2, heq]
  have hgetel : ∀ i : Nat, i < 8 → ∀ (hi1 : i < cs1.length) (hi2 : i < cs2.length),
      cs1[i] = cs2[i] := by
    intro i hi hi1 hi2
    have hq : cs1[i]? = cs2[i]? := by
      have t1 : (cs1.take 532)[i]? = cs1[i]? := List.getElem?_take_of_lt (by omega)
      have t2 : (cs2.take 532)[i]? = cs2[i]? := List.getElem?_take_of_lt (by omega)
      rw [← t1, ← t2, heq]
    rw [List.getElem?_eq_getElem hi1, List.getElem?_eq_getElem hi2] at hq
    exact Option.some.inj hq
  have hslice : ∀ i ∈ uidIdx, sliceHex cs1 i = sliceHex cs2 i := by
    intro i hi
    have hi8 : i < 8 := by
      simp only [uidIdx, List.mem_cons, List.not_mem_nil, or_false] at hi
      rcases hi with rfl|rfl|rfl|rfl|rfl|rfl|rfl <;> omega
    unfold sliceHex
    rw [dif_pos (show i < cs1.length by omega), dif_pos (show i < cs2.length by omega)]
    rw [hgetel i hi8 (by omega) (by omega)]
  have huid : get_uid cs1 = get_uid cs2 := by
    unfold get_uid
    rw [List.map_congr_left hslice]
  have hpwd : get_pwd cs1 = get_pwd cs2 := by
    unfold get_pwd
    rw [huid]
  have hcp : convertPages cs1 = convertPages cs2 := by
    unfold convertPages
    rw [hloop, hpwd]
  have hconv : convert cs1 = convert cs2 := by
    unfold convert
    rw [hcp]
  refine ⟨hconv, hcp, hpwd, ?_⟩
  unfold assemble_code
  rw [hconv, huid]

/-- Witness for C10 on two 533 byte images differing only at byte 532. -/
theorem c10_truncation_witness :
    (532 ≤ (List.replicate 532 0 ++ [1] : List Nat).length) ∧
    (532 ≤ (List.replicate 532 0 ++ [2] : List Nat).length) ∧
    ((List.replicate 532 0 ++ [1] : List Nat).take 532
      = (List.replicate 532 0 ++ [2] : List Nat).take 532) ∧
    convert (List.replicate 532 0 ++ [1]) = convert (List.replicate 532 0 ++ [2]) := by
  have htake : ∀ x : Nat, ((List.replicate 532 0 ++ [x] : List Nat)).take 532
      = List.replicate 532 0 := by
    intro x
    rw [List.take_append_of_le_length (by simp), List.take_of_length_le (by simp)]
  have h := c10_truncation (List.replicate 532 0 ++ [1]) (List.replicate 532 0 ++ [2])
    (by simp) (by simp) (by rw [htake 1, htake 2])
  exact ⟨by simp, by simp, by rw [htake 1, htake 2], h.1⟩

/-- C5: encoding an image of at least 8 bytes and then running the line
patcher on the resulting document leaves every line identical, in
particular the page 133 and page 134 lines are reproduced textually. -/
theorem c5_roundtrip (cs : List Nat) (hb : ∀ b ∈ cs, b < 256) (hlen : 8 ≤ cs.length) :
    assemble_code cs = some (docStr cs) ∧
    readlines (docStr cs) = docLines cs ∧
    save_with_pwd (readlines (docStr cs)) = some (readlines (docStr cs)) ∧
    (readlines (docStr cs))[(151 : Nat)]? = some (("Page 133: " ++ pwdHexSpec cs) ++ nl) ∧
    (readlines (docStr cs))[(152 : Nat)]?
      = some (("Page 134: 80 80 00 00" : String) ++ nl) := by
  have hr := readlines_docStr cs (docCores_noNl cs hb)
  refine ⟨assemble_code_eq cs hb, hr, ?_, ?_, ?_⟩
  · rw [hr]
    exact save_with_pwd_doc cs hb hlen
  · rw [hr, docLines_decomp]
    have hg := getElem_at_mid (preLines cs) (("Page 133: " ++ pwdHexSpec cs) ++ nl)
      [("Page 134: 80 80 00 00" : String) ++ nl]
    rw [preLines_length] at hg
    exact hg
  · rw [hr, docLines_decomp]
    rw [show preLines cs ++ (("Page 133: " ++ pwdHexSpec cs) ++ nl) ::
        [("Page 134: 80 80 00 00" : String) ++ nl]
        = (preLines cs ++ [("Page 133: " ++ pwdHexSpec cs) ++ nl])
          ++ (("Page 134: 80 80 00 00" : String) ++ nl) :: [] by simp]
    have hg := getElem_at_mid (preLines cs ++ [("Page 133: " ++ pwdHexSpec cs) ++ nl])
      (("Page 134: 80 80 00 00" : String) ++ nl) []
    rw [List.length_append, preLines_length] at hg
    exact hg

/-- Witness for C5 at the 8 byte image 01..08. -/
theorem c5_roundtrip_witness :
    (∀ b ∈ ([1, 2, 3, 4, 5, 6, 7, 8] : List Nat), b < 256) ∧
    (8 ≤ ([1, 2, 3, 4, 5, 6, 7, 8] : List Nat).length) ∧
    save_with_pwd (readlines (docStr [1, 2, 3, 4, 5, 6, 7, 8]))
      = some (readlines (docStr [1, 2, 3, 4, 5, 6, 7, 8])) :=
  ⟨by decide, by decide,
    (c5_roundtrip [1, 2, 3, 4, 5, 6, 7, 8] (by decide) (by decide)).2.2.1⟩

/-- C8 counterexample: for a document whose UID line reads
UID: DE AD BE EF 01 02 03, the patcher writes the password bytes
E8 EA 47 57 computed by the fixed formula, not the bytes 61 FB 02 56 the
claim states. -/
theorem c8_counterexample :
    save_with_pwd ["UID: DE AD BE EF 01 02 03\n", "x\n",
        "Page 133: 00 00 00 00\n", "Page 134: 00 00 00 00\n"]
      = some ["UID: DE AD BE EF 01 02 03\n", "x\n",
        "Page 133: E8 EA 47 57\n", "Page 134: 80 80 00 00\n"] ∧
    ("Page 133: E8 EA 47 57\n" : String) ≠ "Page 133: 61 FB 02 56\n" := by decide

/-- C8 amended: for every line list whose first UID line reads
UID: DE AD BE EF 01 02 03, containing page 133 and page 134 marker lines
at distinct first match positions, the patcher rewrites the page 133 line
to the bytes E8 EA 47 57 and the page 134 line to 80 80 00 00, leaving
every other line untouched. -/
theorem c8_amended (lines : List String)
    (huid : get_string_containing lines uidTag = some ("UID: DE AD BE EF 01 02 03\n"))
    (h133 : ∃ l ∈ lines, strContains l tag133 = true)
    (h134 : ∃ l ∈ lines, strContains l tag134 = true)
    (hne : lines.findIdx (fun s => strContains s tag133)
      ≠ lines.findIdx (fun s => strContains s tag134)) :
    save_with_pwd lines
      = some ((lines.set (lines.findIdx (fun s => strContains s tag133))
          "Page 133: E8 EA 47 57\n").set
            (lines.findIdx (fun s => strContains s tag134)) "Page 134: 80 80 00 00\n") := by
  have hub : get_uid_bytes ("UID: DE AD BE EF 01 02 03\n")
      = some [0xDE, 0xAD, 0xBE, 0xEF, 0x01, 0x02, 0x03] := by decide
  have hcp : calculate_password [0xDE, 0xAD, 0xBE, 0xEF, 0x01, 0x02, 0x03]
      = [0xE8, 0xEA, 0x47, 0x57] := by decide
  have hfmt1 : format_new_page tag133 [0xE8, 0xEA, 0x47, 0x57]
      = "Page 133: E8 EA 47 57\n" := by decide
  have hfmt2 : format_new_page tag134 [([0x80, 0x80] : List Nat).getD 0 0,
      ([0x80, 0x80] : List Nat).getD 1 0, 0, 0] = "Page 134: 80 80 00 00\n" := by decide
  have hjlt : lines.findIdx (fun s => strContains s tag134) < lines.length :=
    List.findIdx_lt_length_of_exists h134
  have hrep1 : save_pwd_to_page lines
        (calculate_password [0xDE, 0xAD, 0xBE, 0xEF, 0x01, 0x02, 0x03])
      = some (lines.set (lines.findIdx (fun s => strContains s tag133))
          "Page 133: E8 EA 47 57\n") := by
    unfold save_pwd_to_page
    rw [hcp, replace_page_data_eq lines tag133 _ h133, hfmt1]
  have hpx : strContains ("Page 133: E8 EA 47 57\n") tag134 = false := by decide
  have hfind2 : (lines.set (lines.findIdx (fun s => strContains s tag133))
        "Page 133: E8 EA 47 57\n").findIdx (fun s => strContains s tag134)
      = lines.findIdx (fun s => strContains s tag134) :=
    findIdx_set_ne _ lines _ _ hpx hjlt (Ne.symm hne)
  have hjlt2 : lines.findIdx (fun s => strContains s tag134)
      < (lines.set (lines.findIdx (fun s => strContains s tag133))
          "Page 133: E8 EA 47 57\n").length := by
    rw [List.length_set]
    exact hjlt
  have hmem134 : ∃ l ∈ lines.set (lines.findIdx (fun s => strContains s tag133))
      "Page 133: E8 EA 47 57\n", strContains l tag134 = true := by
    refine ⟨(lines.set (lines.findIdx (fun s => strContains s tag133))
      "Page 133: E8 EA 47 57\n")[lines.findIdx (fun s => strContains s tag134)],
      List.getElem_mem hjlt2, ?_⟩
    rw [List.getElem_set_ne hne]
    exact @List.findIdx_getElem _ (fun s => strContains s tag134) lines hjlt
  have hrep2 : save_pack_to_page (lines.set (lines.findIdx (fun s => strContains s tag133))
        "Page 133: E8 EA 47 57\n") [0x80, 0x80]
      = some ((lines.set (lines.findIdx (fun s => strContains s tag133))
          "Page 133: E8 EA 47 57\n").set
            (lines.findIdx (fun s => strContains s tag134)) "Page 134: 80 80 00 00\n") := by
    unfold save_pack_to_page
    rw [replace_page_data_eq _ tag134 _ hmem134, hfind2, hfmt2]
  have hrw : save_with_pwd lines
      = match save_pwd_to_page lines
          (calculate_password [0xDE, 0xAD, 0xBE, 0xEF, 0x01, 0x02, 0x03]) with
        | none => none
        | some lines1 => save_pack_to_page lines1 [0x80, 0x80] := by
    unfold save_with_pwd
    simp only [huid, hub]
  rw [hrw]
  simp only [hrep1, hrep2]

/-- Witness for the amended C8 on a small concrete document. -/
theorem c8_amended_witness :
    (get_string_containing ["UID: DE AD BE EF 01 02 03\n", "x\n",
        "Page 133: 00 00 00 00\n", "Page 134: 00 00 00 00\n"] uidTag
      = some ("UID: DE AD BE EF 01 02 03\n")) ∧
    save_with_pwd ["UID: DE AD BE EF 01 02 03\n", "x\n",
        "Page 133: 00 00 00 00\n", "Page 134: 00 00 00 00\n"]
      = some ((["UID: DE AD BE EF 01 02 03\n", "x\n",
          "Page 133: 00 00 00 00\n", "Page 134: 00 00 00 00\n"].set
            (["UID: DE AD BE EF 01 02 03\n", "x\n",
              "Page 133: 00 00 00 00\n", "Page 134: 00 00 00 00\n"].findIdx
                (fun s => strContains s tag133)) "Page 133: E8 EA 47 57\n").set
            (["UID: DE AD BE EF 01 02 03\n", "x\n",
              "Page 133: 00 00 00 00\n", "Page 134: 00 00 00 00\n"].findIdx
                (fun s => strContains s tag134)) "Page 134: 80 80 00 00\n") :=
  ⟨by decide, c8_amended ["UID: DE AD BE EF 01 02 03\n", "x\n",
      "Page 133: 00 00 00 00\n", "Page 134: 00 00 00 00\n"]
    (by decide) (by decide) (by decide) (by decide)⟩
